import Mathlib

/-!
# goauthy: the in-memory user/session store

A shallow embedding of `pkg/memory` (`memory.go`, `control.go`), `pkg/constants` and
`internal/utils`.

Modelling decisions.

* Go pointers `*User` are natural numbers (`Ptr`) into a heap `Ptr → User`; `next` is the
  allocation counter, so `&User{...}` writes the object at `next` and increments it.  Pointer
  identity (`user != fromSessionUser`) is equality of `Ptr`.
* The two Go maps `users` and `sessions` are association lists.  `range` over a map visits the
  entries in list order; Go leaves that order unspecified, and the statements below hold for
  every list, hence for every order.
* The model has one store.  The back-reference `user.store` is `true` when it points to that
  store and `false` when it is nil; dereferencing a nil store panics, which is the result `none`
  of the operations that return an `Option`.
* `bcrypt` and `uuid.NewString` are external: hashing and verification are the fields of
  `Primitives`, and the identifier generated by a `Login` is an argument of `Login`.
* A function that returns `(*User, error)` returns `Except Error Ptr`; the fresh zero `&User{}`
  that Go returns next to a non-nil error belongs to no store and is not allocated.
* The store lock and the logger sink are not part of the state: operations run one at a time.
-/

namespace memory

/-- Errors of `pkg/constants`, and the errors of the bcrypt package (by a code). -/
inductive Error
  | ErrInvalidUsernamePassword
  | ErrNotFound
  | ErrAlreadyExists
  | ErrNotAllowed
  | ErrAlreadyAuthenticated
  | bcrypt (code : Nat)
  deriving DecidableEq, Repr

/-- Access level `constants.DELETED`. -/
def DELETED : Int := -2
/-- Access level `constants.PUBLIC`. -/
def PUBLIC : Int := -1
/-- Access level `constants.ADMIN`. -/
def ADMIN : Int := 0
/-- Access level `constants.USER`. -/
def USER : Int := 1

/-- A pointer to a `User` object. -/
abbrev Ptr := Nat

/-- The struct `UserSettings`. -/
structure UserSettings where
  MaxSessions : Int
  AllowPasswordChange : Bool

/-- The struct `Options` without its logger; a compiled regular expression is its `Match`. -/
structure Options where
  usernameRegex : String → Bool
  passRegex : String → Bool
  UserSettings : UserSettings

/-- The struct `User`.  `Variables` is `none` for a nil map; `store` is `false` for a nil
back-reference. -/
structure User where
  Variables : Option (List (String × String))
  username : String
  access : Int
  password : String
  store : Bool
  session : String
  deriving DecidableEq, Repr

/-- The zero value `User{}`. -/
def User.zero : User :=
  { Variables := none, username := "", access := 0, password := "", store := false, session := "" }

/-- The external primitives: `utils.HashPassword` (bcrypt `GenerateFromPassword`) and
`bcrypt.CompareHashAndPassword` (`none` is the nil error). -/
structure Primitives where
  HashPassword : String → Except Error String
  CompareHashAndPassword : String → String → Option Error

/-- The struct `store` together with the heap of `User` objects its maps point into. -/
structure store where
  heap : Ptr → User
  next : Ptr
  users : List (String × Ptr)
  sessions : List (String × Ptr)
  options : Options

/-- Map read `m[k]`. -/
def mapLookup (m : List (String × Ptr)) (k : String) : Option Ptr :=
  (m.find? (fun e => decide (e.1 = k))).map (fun e => e.2)

/-- Map removal `delete(m, k)`. -/
def mapDelete (m : List (String × Ptr)) (k : String) : List (String × Ptr) :=
  m.filter (fun e => decide (e.1 ≠ k))

/-- Map write `m[k] = v`. -/
def mapInsert (m : List (String × Ptr)) (k : String) (v : Ptr) : List (String × Ptr) :=
  mapDelete m k ++ [(k, v)]

/-- The characters of the class `[a-zA-Z0-9+\.+_]`. -/
def usernameClass (c : Char) : Bool :=
  decide (('a' ≤ c ∧ c ≤ 'z') ∨ ('A' ≤ c ∧ c ≤ 'Z') ∨ ('0' ≤ c ∧ c ≤ '9')
    ∨ c = '+' ∨ c = '.' ∨ c = '_')

/-- `Match` of the default username pattern `^[a-zA-Z0-9+\.+_]+$`: Go's `^` and `$` (no
multi-line flag) match only at the two ends of the text, so the whole text is one or more
characters of the class. -/
def defaultUsernameRegex (s : String) : Bool :=
  !s.data.isEmpty && s.data.all usernameClass

/-- `Match` of the default password pattern `.+`: the pattern is not anchored and Go's `.`
matches every character but the line feed, so the text matches when it holds a character
other than the line feed. -/
def defaultPassRegex (s : String) : Bool :=
  s.data.any (fun c => decide (c ≠ Char.ofNat 10))

/-- `Init(logger*, UserSettings*, usernameRegex*, passRegex*)`: an override that is absent or
nil keeps the default. -/
def Init (userSettings : Option UserSettings) (usernameRegex passRegex : Option (String → Bool)) :
    store :=
  { heap := fun _ => User.zero
    next := 0
    users := []
    sessions := []
    options :=
      { usernameRegex := usernameRegex.getD defaultUsernameRegex
        passRegex := passRegex.getD defaultPassRegex
        UserSettings := userSettings.getD { MaxSessions := 0, AllowPasswordChange := true } } }

/-- Write through a pointer: `*p = f(*p)`. -/
def store.setUser (s : store) (p : Ptr) (f : User → User) : store :=
  { s with heap := Function.update s.heap p (f (s.heap p)) }

/-- Allocation `&User{...}`. -/
def store.alloc (s : store) (u : User) : store × Ptr :=
  ({ s with heap := Function.update s.heap s.next u, next := s.next + 1 }, s.next)

/-- `store.get` of control.go: the first registry value whose username field matches. -/
def store.get (s : store) (username : String) : Except Error Ptr :=
  match s.users.find? (fun e => decide ((s.heap e.2).username = username)) with
  | some e => .ok e.2
  | none => .error .ErrNotFound

/-- `store.add` of control.go. -/
def store.add (P : Primitives) (s : store) (user : Ptr) : store × Option Error :=
  if s.users.any (fun e => decide ((s.heap user).username = e.1)) then
    (s, some .ErrAlreadyExists)
  else
    match P.HashPassword (s.heap user).password with
    | .error err => (s, some err)
    | .ok passHash =>
      let s1 := s.setUser user (fun u => { u with password := passHash })
      ({ s1 with users := mapInsert s1.users (s1.heap user).username user }, none)

/-- `store.RemoveSessions`. -/
def store.RemoveSessions (s : store) (sessions : List String) : store :=
  sessions.foldl (fun st session => { st with sessions := mapDelete st.sessions session }) s

/-- `User.getSessions`: the identifiers bound to a user with the same username. -/
def User.getSessions (s : memory.store) (user : Ptr) : Option (List String) :=
  if (s.heap user).store then
    some ((s.sessions.filter
      (fun e => decide ((s.heap e.2).username = (s.heap user).username))).map (fun e => e.1))
  else none

/-- `store.remove` of control.go. -/
def store.remove (s : store) (user : Ptr) : Option store :=
  match User.getSessions s user with
  | none => none
  | some sessions =>
    let s1 := s.RemoveSessions sessions
    some { s1 with users := mapDelete s1.users (s1.heap user).username }

/-- `store.newSession` of control.go. -/
def store.newSession (s : store) (session : String) (user : Ptr) : store × Option Error :=
  if (mapLookup s.sessions session).isSome then (s, some .ErrAlreadyAuthenticated)
  else ({ s with sessions := mapInsert s.sessions session user }, none)

/-- `store.UserFromUsername`. -/
def store.UserFromUsername (s : store) (username : String) : Except Error Ptr :=
  s.get username

/-- `store.UserFromID`. -/
def store.UserFromID (s : store) (sessionID : String) : Except Error Ptr :=
  match s.sessions.find? (fun e => decide (e.1 = sessionID)) with
  | some e => .ok e.2
  | none => .error .ErrNotFound

/-- `store.Add`. -/
def store.Add (P : Primitives) (s : store) (username password : String) (access : Int) :
    store × Option Error :=
  let (s0, user) := s.alloc
    { username := username, password := password, access := access, Variables := some [],
      store := false, session := "" }
  if !s0.options.usernameRegex (s0.heap user).username
      || !s0.options.passRegex (s0.heap user).password then
    (s0, some .ErrInvalidUsernamePassword)
  else
    let (s1, _) := s0.add P user
    (s1.setUser user (fun u => { u with store := true }), none)

/-- `User.Username`. -/
def User.Username (s : memory.store) (user : Ptr) : String :=
  (s.heap user).username

/-- `User.validateSession`. -/
def User.validateSession (s : memory.store) (user : Ptr) : Option Bool :=
  match User.getSessions s user with
  | none => none
  | some sessions =>
    match sessions.find? (fun session => decide (session = (s.heap user).session)) with
    | some session =>
      match s.UserFromID session with
      | .error _ => some false
      | .ok fromSessionUser => some (decide (user = fromSessionUser))
    | none => some false

/-- `User.Session`. -/
def User.Session (s : memory.store) (user : Ptr) : Option (memory.store × String) :=
  match User.validateSession s user with
  | none => none
  | some valid =>
    let s1 := if !valid then s.setUser user (fun u => { u with session := "" }) else s
    some (s1, (s1.heap user).session)

/-- `User.ChangePassword`. -/
def User.ChangePassword (P : Primitives) (s : memory.store) (user : Ptr) (password : String) :
    Option (memory.store × Option Error) :=
  match User.validateSession s user with
  | none => none
  | some valid =>
    if !valid then some (s, some .ErrNotAllowed)
    else if !s.options.usernameRegex (s.heap user).username
        || !s.options.passRegex password then
      some (s, some .ErrInvalidUsernamePassword)
    else if !s.options.UserSettings.AllowPasswordChange then some (s, some .ErrNotAllowed)
    else
      match P.HashPassword password with
      | .error err => some (s, some err)
      | .ok hashPass => some (s.setUser user (fun u => { u with password := hashPass }), none)

/-- `User.LogOut`. -/
def User.LogOut (s : memory.store) (user : Ptr) : Option memory.store :=
  if (s.heap user).store then some (s.RemoveSessions [(s.heap user).session]) else none

/-- `User.LogOutFully`. -/
def User.LogOutFully (s : memory.store) (user : Ptr) : Option memory.store :=
  match User.getSessions s user with
  | none => none
  | some sessions => some (s.RemoveSessions sessions)

/-- `User.Delete`. -/
def User.Delete (s : memory.store) (user : Ptr) : Option memory.store :=
  if (s.heap user).store then
    match s.remove user with
    | none => none
    | some s1 =>
      some (s1.setUser user (fun u =>
        { u with password := "", username := "", session := "", access := -1,
                 Variables := none }))
  else none

/-- The local `_sessionID` of `Login`: the generated identifier, replaced by the caller's when
exactly one was passed. -/
def loginSessionID (uuid : String) (sessionID : List String) : String :=
  match sessionID with
  | [x] => x
  | _ => uuid

/-- `store.Login`; `uuid` is the value of `uuid.NewString()` and `sessionID` the variadic
argument. -/
def store.Login (P : Primitives) (s : store) (uuid : String) (username password : String)
    (sessionID : List String) : Option (store × Except Error Ptr) :=
  if !s.options.usernameRegex username || !s.options.passRegex password then
    some (s, .error .ErrInvalidUsernamePassword)
  else
    match s.UserFromUsername username with
    | .error err => some (s, .error err)
    | .ok user =>
      match P.CompareHashAndPassword (s.heap user).password password with
      | some err => some (s, .error err)
      | none =>
        match User.getSessions s user with
        | none => none
        | some sessions =>
          if s.options.UserSettings.MaxSessions = (sessions.length : Int)
              ∧ s.options.UserSettings.MaxSessions > 0 then
            some (s, .error .ErrAlreadyAuthenticated)
          else
            let _sessionID := loginSessionID uuid sessionID
            let s1 := s.setUser user (fun u => { u with session := _sessionID })
            match s1.newSession (s1.heap user).session user with
            | (s2, some err) => some (s2, .error err)
            | (s2, none) => some (s2, .ok user)

/-- `User.CheckAccess`. -/
def User.CheckAccess (s : memory.store) (user : Ptr) (accessLevel : Int) : Option Bool :=
  if (s.heap user).access = -2 then some false
  else if accessLevel = -1 then some true
  else if (s.heap user).access > accessLevel then some false
  else
    match User.validateSession s user with
    | none => none
    | some valid => if !valid then some false else some true

/-- `User.ChangeAccess`. -/
def User.ChangeAccess (s : memory.store) (user : Ptr) (accessLevel : Int) : memory.store :=
  s.setUser user (fun u => { u with access := accessLevel })

/-- Consistency of a store state: the objects the two maps point to are allocated, every
registry key is the username of the record it maps to, and every session is bound to a record
of the registry. -/
structure store.Consistent (s : store) : Prop where
  users_allocated : ∀ e ∈ s.users, e.2 < s.next
  sessions_allocated : ∀ e ∈ s.sessions, e.2 < s.next
  key_username : ∀ e ∈ s.users, (s.heap e.2).username = e.1
  session_registered : ∀ e ∈ s.sessions, ∃ r ∈ s.users, r.2 = e.2

/-- An instance of the primitives for evaluating the operations on explicit inputs: the hash
of `p` is `#p`, and verification compares with it. -/
def markPrimitives : Primitives :=
  { HashPassword := fun p => .ok ("#" ++ p)
    CompareHashAndPassword := fun h p => if h = "#" ++ p then none else some (.bcrypt 0) }

/-- The state a successful `Login` leaves: the record holds `sid` and the table binds `sid`
to the record. -/
def store.loggedIn (s : store) (user : Ptr) (sid : String) : store :=
  { s with
    heap := Function.update s.heap user { s.heap user with session := sid }
    sessions := mapInsert s.sessions sid user }

/-- The store after `Add("bob", "pw", USER)` and `Add("eve", "pw", USER)` on the initial
store with the default configuration; `bob` is the record 0 and `eve` the record 1. -/
def twoUsers : store :=
  (((Init none none none).Add markPrimitives "bob" "pw" USER).1.Add
    markPrimitives "eve" "pw" USER).1

/-- On `twoUsers`: `Login("bob", "pw", "s1")`, `Login("eve", "pw", "s2")`, then
`Login("bob", "pw", "s2")`.  The result is the state before the third call, the state after
it, and what it returned. -/
def boundSessionRun : Option (store × store × Except Error Ptr) :=
  match twoUsers.Login markPrimitives "g1" "bob" "pw" ["s1"] with
  | none => none
  | some r1 =>
    match r1.1.Login markPrimitives "g2" "eve" "pw" ["s2"] with
    | none => none
    | some r2 =>
      match r2.1.Login markPrimitives "g3" "bob" "pw" ["s2"] with
      | none => none
      | some r3 => some (r2.1, r3.1, r3.2)

/-- On `twoUsers`: `bob` logs in with the identifier `x` and logs out, `eve` logs in with the
identifier `x`, then `LogOut` is called again on the handle of `bob`.  The result is the state
before that second `LogOut` and the state after it. -/
def staleLogOutRun : Option (store × store) :=
  match twoUsers.Login markPrimitives "g1" "bob" "pw" ["x"] with
  | none => none
  | some r1 =>
    match User.LogOut r1.1 0 with
    | none => none
    | some s2 =>
      match s2.Login markPrimitives "g2" "eve" "pw" ["x"] with
      | none => none
      | some r3 =>
        match User.LogOut r3.1 0 with
        | none => none
        | some s4 => some (r3.1, s4)

/-- The state after `Login("bob", "pw", "s1")` on the store that holds `bob` with the access
level `a`, or the initial store if that `Login` panics; `bob` is the record 0. -/
def bobLoggedIn (a : Int) : store :=
  match ((Init none none none).Add markPrimitives "bob" "pw" a).1.Login
      markPrimitives "g1" "bob" "pw" ["s1"] with
  | some r => r.1
  | none => Init none none none

/-- The state after `Add("test", "test", PUBLIC)` and `Login("test", "test")` on the store
initialised with `UserSettings{AllowPasswordChange: false}`, or that initial store if the
`Login` panics; `test` is the record 0. -/
def disabledLoggedIn : store :=
  match ((Init (some { MaxSessions := 0, AllowPasswordChange := false }) none none).Add
      markPrimitives "test" "test" PUBLIC).1.Login markPrimitives "g1" "test" "test" [] with
  | some r => r.1
  | none => Init (some { MaxSessions := 0, AllowPasswordChange := false }) none none

/-- The one-character password that holds a line feed. -/
def lineFeedPassword : String :=
  String.mk [Char.ofNat 10]

/-- The keys of a Go map are pairwise distinct. -/
def uniqueKeys (m : List (String × Ptr)) : Prop :=
  (m.map fun e => e.1).Nodup

/-- The state after `Add("bob", "pw", USER)` and `Login("bob", "pw", "s1")` on the store
initialised with `UserSettings{MaxSessions: 1, AllowPasswordChange: true}`, or that initial
store if the `Login` panics; `bob` is the record 0 and holds one session. -/
def oneSessionStore : store :=
  match ((Init (some { MaxSessions := 1, AllowPasswordChange := true }) none none).Add
      markPrimitives "bob" "pw" USER).1.Login markPrimitives "g1" "bob" "pw" ["s1"] with
  | some r => r.1
  | none => Init (some { MaxSessions := 1, AllowPasswordChange := true }) none none

/-- The state `Delete` leaves on a handle whose store is set: the sessions bound under the
username of the record are removed, the registry key equal to that username is removed, and
the fields of the record are scrubbed. -/
def store.deleted (s : store) (h : Ptr) : store :=
  { s with
    heap := Function.update s.heap h
      { s.heap h with password := "", username := "", session := "", access := -1,
                      Variables := none }
    users := mapDelete s.users (s.heap h).username
    sessions := s.sessions.filter (fun e => decide (e.1 ∉ (s.sessions.filter
      (fun e => decide ((s.heap e.2).username = (s.heap h).username))).map (fun e => e.1))) }

/-- On `twoUsers`: `bob` logs in and `Delete()` is called on the handle; `eve` logs in with
the empty string as the caller's identifier; then `LogOut()` is called on the deleted handle
of `bob`.  The result is the state before that `LogOut` and the state after it. -/
def deletedLogOutRun : Option (store × store) :=
  match twoUsers.Login markPrimitives "g1" "bob" "pw" ["s1"] with
  | none => none
  | some r1 =>
    match User.Delete r1.1 0 with
    | none => none
    | some s2 =>
      match s2.Login markPrimitives "g2" "eve" "pw" [""] with
      | none => none
      | some r3 =>
        match User.LogOut r3.1 0 with
        | none => none
        | some s4 => some (r3.1, s4)

/-- The states that the public operations reach from `s0`.  A handle is any pointer: the
operations that dereference its store do not return on a record whose store is nil. -/
inductive Reachable (s0 : store) : store → Prop
  | init : Reachable s0 s0
  | Add (P : Primitives) {s : store} (u p : String) (a : Int) :
      Reachable s0 s → Reachable s0 (s.Add P u p a).1
  | Login (P : Primitives) {s s1 : store} (uuid u p : String) (sids : List String)
      (r : Except Error Ptr) :
      Reachable s0 s → s.Login P uuid u p sids = some (s1, r) → Reachable s0 s1
  | LogOut {s s1 : store} (h : Ptr) :
      Reachable s0 s → User.LogOut s h = some s1 → Reachable s0 s1
  | LogOutFully {s s1 : store} (h : Ptr) :
      Reachable s0 s → User.LogOutFully s h = some s1 → Reachable s0 s1
  | Delete {s s1 : store} (h : Ptr) :
      Reachable s0 s → User.Delete s h = some s1 → Reachable s0 s1
  | ChangePassword (P : Primitives) {s s1 : store} (h : Ptr) (p : String) (e : Option Error) :
      Reachable s0 s → User.ChangePassword P s h p = some (s1, e) → Reachable s0 s1
  | ChangeAccess {s : store} (h : Ptr) (a : Int) :
      Reachable s0 s → Reachable s0 (User.ChangeAccess s h a)
  | RemoveSessions {s : store} (ids : List String) :
      Reachable s0 s → Reachable s0 (s.RemoveSessions ids)
  | Session {s s1 : store} (h : Ptr) (v : String) :
      Reachable s0 s → User.Session s h = some (s1, v) → Reachable s0 s1

/-- The number of session table entries bound to a record whose username is `name`: the
length of what `getSessions` returns for a user of that name. -/
def store.sessionCount (s : store) (name : String) : Nat :=
  (s.sessions.filter (fun e => decide ((s.heap e.2).username = name))).length

/-- The invariant behind the session limit `n`: the limit is `n`, the records of both maps are
allocated, and no username has more than `n` sessions. -/
structure store.SessionBound (n : Int) (s : store) : Prop where
  limit : s.options.UserSettings.MaxSessions = n
  users_allocated : ∀ e ∈ s.users, e.2 < s.next
  sessions_allocated : ∀ e ∈ s.sessions, e.2 < s.next
  bounded : ∀ name, (s.sessionCount name : Int) ≤ n

/-- The session check as the direct lookup by identity: the session table has the key
recorded in the record, and binds it to that very record. -/
def User.sessionBoundToSelf (s : memory.store) (user : Ptr) : Bool :=
  decide (mapLookup s.sessions (s.heap user).session = some user)

end memory

/-! # The persistent variant

`pkg/persistent` (`persistent.go`, `control.go`).  The functions `get`, `newSession`,
`UserFromID`, `Login`, `getSessions` and `validateSession` of this package have the same text as
in `pkg/memory`, and their embedding is reused on the in-memory part of the store.  The table
`users` of the database is a list of rows; the SQL statements run on an open database and
succeed. -/

namespace persistent

open memory

/-- A row of the table `users (username TEXT, password TEXT, access INTEGER)`. -/
structure Row where
  username : String
  password : String
  access : Int
  deriving DecidableEq, Repr

/-- The struct `store` of the package: the maps and options as in `pkg/memory` (with the
heap), and the table `users` behind the `database` handle. -/
structure store where
  mem : memory.store
  database : List Row

/-- `store.rawAdd` of control.go: the registry insertion without hashing and without a
statement. -/
def rawAdd (m : memory.store) (user : Ptr) : memory.store × Option Error :=
  if m.users.any (fun e => decide ((m.heap user).username = e.1)) then
    (m, some .ErrAlreadyExists)
  else
    ({ m with users := mapInsert m.users (m.heap user).username user }, none)

/-- `Init` on a database file whose table `users` holds `table` (the empty list when the table
has just been created): `SELECT * FROM users`, and one `rawAdd` per row. -/
def Init (table : List Row) (userSettings : Option UserSettings)
    (usernameRegex passRegex : Option (String → Bool)) : store :=
  { mem := table.foldl
      (fun m row =>
        (rawAdd (m.alloc
          { username := row.username, password := row.password, access := row.access,
            store := true, Variables := some [], session := "" }).1 m.next).1)
      (memory.Init userSettings usernameRegex passRegex)
    database := table }

/-- `store.add` of control.go: the registry insertion, then
`INSERT INTO users(username, password, access) VALUES (?, ?, ?)`. -/
def store.add (P : Primitives) (s : store) (user : Ptr) : store × Option Error :=
  if s.mem.users.any (fun e => decide ((s.mem.heap user).username = e.1)) then
    (s, some .ErrAlreadyExists)
  else
    match P.HashPassword (s.mem.heap user).password with
    | .error err => (s, some err)
    | .ok passHash =>
      let m1 := s.mem.setUser user (fun u => { u with password := passHash })
      let m2 := { m1 with users := mapInsert m1.users (m1.heap user).username user }
      ({ mem := m2
         database := s.database ++
           [{ username := (m2.heap user).username, password := (m2.heap user).password,
              access := (m2.heap user).access }] }, none)

/-- `store.Add`. -/
def store.Add (P : Primitives) (s : store) (username password : String) (access : Int) :
    store × Option Error :=
  let (m0, user) := s.mem.alloc
    { username := username, password := password, access := access, Variables := some [],
      store := false, session := "" }
  if !m0.options.usernameRegex (m0.heap user).username
      || !m0.options.passRegex (m0.heap user).password then
    ({ s with mem := m0 }, some .ErrInvalidUsernamePassword)
  else
    let (s1, _) := store.add P { s with mem := m0 } user
    ({ s1 with mem := s1.mem.setUser user (fun u => { u with store := true }) }, none)

/-- `store.Login`: the text of `pkg/memory`; the table is not touched. -/
def store.Login (P : Primitives) (s : store) (uuid : String) (username password : String)
    (sessionID : List String) : Option (store × Except Error Ptr) :=
  match s.mem.Login P uuid username password sessionID with
  | none => none
  | some r => some ({ s with mem := r.1 }, r.2)

/-- `User.ChangePassword`: after the three checks and the hashing,
`UPDATE users SET password=? WHERE username=?` is executed with `user.password` and
`user.username`, then `user.password = hashPass`. -/
def User.ChangePassword (P : Primitives) (s : persistent.store) (user : Ptr)
    (password : String) : Option (persistent.store × Option Error) :=
  match memory.User.validateSession s.mem user with
  | none => none
  | some valid =>
    if !valid then some (s, some .ErrNotAllowed)
    else if !s.mem.options.usernameRegex (s.mem.heap user).username
        || !s.mem.options.passRegex password then
      some (s, some .ErrInvalidUsernamePassword)
    else if !s.mem.options.UserSettings.AllowPasswordChange then some (s, some .ErrNotAllowed)
    else
      match P.HashPassword password with
      | .error err => some (s, some err)
      | .ok hashPass =>
        some ({ mem := s.mem.setUser user (fun u => { u with password := hashPass })
                database := s.database.map (fun row =>
                  if row.username = (s.mem.heap user).username then
                    { row with password := (s.mem.heap user).password }
                  else row) }, none)

/-- On the store initialised on an empty table: `Add("user", "test", USER)`,
`Login("user", "test")`, `ChangePassword("test1")` on the returned handle.  The result is the
state after `ChangePassword` and the error it returned. -/
def changePasswordRun : Option (store × Option Error) :=
  match ((Init [] none none none).Add markPrimitives "user" "test" USER).1.Login
      markPrimitives "g1" "user" "test" [] with
  | none => none
  | some r => User.ChangePassword markPrimitives r.1 0 "test1"

end persistent

namespace memory

/-! ## Lemmas on the two maps and on the state after `Add` and `Login` -/

theorem mapLookup_mapInsert_self (m : List (String × Ptr)) (k : String) (v : Ptr) :
    mapLookup (mapInsert m k v) k = some v := by
  have h : List.find? (fun e : String × Ptr => decide (e.1 = k)) (mapDelete m k) = none := by
    rw [List.find?_eq_none]
    intro e he
    simp [mapDelete] at he
    simpa using he.2
  simp [mapLookup, mapInsert, List.find?_append, h]

theorem mapLookup_eq_none_iff (m : List (String × Ptr)) (k : String) :
    mapLookup m k = none ↔ ∀ e ∈ m, e.1 ≠ k := by
  simp [mapLookup, List.find?_eq_none]

theorem mem_mapDelete (m : List (String × Ptr)) (k : String) (e : String × Ptr) :
    e ∈ mapDelete m k ↔ e ∈ m ∧ e.1 ≠ k := by
  simp [mapDelete]

theorem mapDelete_of_absent (m : List (String × Ptr)) (k : String) (h : ∀ e ∈ m, e.1 ≠ k) :
    mapDelete m k = m := by
  simp only [mapDelete, List.filter_eq_self]
  intro e he
  simpa using h e he

theorem Add_fresh_state (P : Primitives) (s : store) (u p : String) (a : Int) (h : String)
    (hu : s.options.usernameRegex u = true) (hp : s.options.passRegex p = true)
    (hnew : ∀ e ∈ s.users, e.1 ≠ u) (hh : P.HashPassword p = .ok h) :
    s.Add P u p a =
      ({ heap := Function.update s.heap s.next
            { Variables := some [], username := u, access := a, password := h, store := true,
              session := "" }
         next := s.next + 1
         users := mapInsert s.users u s.next
         sessions := s.sessions
         options := s.options }, none) := by
  have hany : (s.users.any fun e => decide (u = e.1)) = false := by
    rw [List.any_eq_false]
    intro e he
    have := hnew e he
    simpa using fun h => this h.symm
  simp [store.Add, store.alloc, store.add, store.setUser, hu, hp, hany, hh]

theorem Login_ok_inv (P : Primitives) (s s2 : store) (uuid u p : String) (sids : List String)
    (q : Ptr) (h : s.Login P uuid u p sids = some (s2, .ok q)) :
    s.options.usernameRegex u = true ∧ s.options.passRegex p = true ∧ s.get u = .ok q
      ∧ P.CompareHashAndPassword (s.heap q).password p = none
      ∧ (s.heap q).store = true
      ∧ mapLookup s.sessions (loginSessionID uuid sids) = none
      ∧ s2 = s.loggedIn q (loginSessionID uuid sids) := by
  unfold store.Login at h
  split at h
  · simp at h
  · rename_i hv
    simp only [Bool.or_eq_true, Bool.not_eq_true', not_or, Bool.not_eq_false] at hv
    simp only [store.UserFromUsername] at h
    split at h
    · simp at h
    · rename_i user hget
      split at h
      · simp at h
      · rename_i hcmp
        split at h
        · simp at h
        · rename_i sessions hsess
          split at h
          · simp at h
          · simp only [store.newSession, store.setUser, Function.update_same] at h
            split at h
            · rename_i s3 e heq
              split at heq <;> simp at h
            · rename_i s3 heq
              split at heq
              · simp at heq
              · rename_i hl
                simp only [Option.some.injEq, Prod.mk.injEq, Except.ok.injEq] at h
                obtain ⟨h1, h2⟩ := h
                subst h2
                simp only [Prod.mk.injEq, and_true] at heq
                have hst : (s.heap user).store = true := by
                  unfold User.getSessions at hsess
                  split at hsess
                  · assumption
                  · simp at hsess
                refine ⟨hv.1, hv.2, hget, hcmp, hst, ?_, ?_⟩
                · simpa using hl
                · rw [← h1, ← heq]; rfl

theorem UserFromID_loggedIn (s : store) (q : Ptr) (sid : String) :
    (s.loggedIn q sid).UserFromID sid = .ok q := by
  have h := mapLookup_mapInsert_self s.sessions sid q
  simp only [mapLookup, Option.map_eq_some'] at h
  obtain ⟨e, he, he2⟩ := h
  simp only [store.UserFromID, store.loggedIn, he, he2]

theorem find?_eq_self {l : List String} {x : String} (h : x ∈ l) :
    l.find? (fun y => decide (y = x)) = some x := by
  cases hf : l.find? (fun y => decide (y = x)) with
  | none =>
    rw [List.find?_eq_none] at hf
    simpa using hf x h
  | some y =>
    have := List.find?_some hf
    simp at this
    rw [this]

theorem validateSession_loggedIn (s : store) (q : Ptr) (sid : String)
    (hst : (s.heap q).store = true) :
    User.validateSession (s.loggedIn q sid) q = some true := by
  have hmem : sid ∈ ((s.loggedIn q sid).sessions.filter (fun e =>
      decide (((s.loggedIn q sid).heap e.2).username = ((s.loggedIn q sid).heap q).username))).map
        (fun e => e.1) := by
    simp only [List.mem_map, List.mem_filter]
    exact ⟨(sid, q), ⟨by simp [store.loggedIn, mapInsert], by simp⟩, rfl⟩
  have hs : ((s.loggedIn q sid).heap q).session = sid := by simp [store.loggedIn]
  have hst2 : ((s.loggedIn q sid).heap q).store = true := by simp [store.loggedIn, hst]
  simp only [User.validateSession, User.getSessions, hst2, if_true, hs, find?_eq_self hmem,
    UserFromID_loggedIn, decide_True]

theorem Login_ok_of (P : Primitives) (s : store) (uuid u p : String) (sids : List String)
    (q : Ptr) (hu : s.options.usernameRegex u = true) (hp : s.options.passRegex p = true)
    (hget : s.get u = .ok q) (hcmp : P.CompareHashAndPassword (s.heap q).password p = none)
    (hst : (s.heap q).store = true)
    (hlim : ∀ l, User.getSessions s q = some l →
      ¬ (s.options.UserSettings.MaxSessions = (l.length : Int)
          ∧ s.options.UserSettings.MaxSessions > 0))
    (hfree : mapLookup s.sessions (loginSessionID uuid sids) = none) :
    s.Login P uuid u p sids = some (s.loggedIn q (loginSessionID uuid sids), .ok q) := by
  have hg : User.getSessions s q = some ((s.sessions.filter
      (fun e => decide ((s.heap e.2).username = (s.heap q).username))).map (fun e => e.1)) := by
    simp [User.getSessions, hst]
  have hl := hlim _ hg
  simp only [store.Login, hu, hp, store.UserFromUsername, hget, hcmp, hg]
  simp only [Bool.not_true, Bool.or_self, Bool.false_eq_true, if_false, hl, store.newSession,
    store.setUser, Function.update_same, hfree, Option.isSome_none, store.loggedIn]

/-! ## C1: `Add` followed by `Login` -/

/-- C1 (as stated, refuted): with the default configuration, `Add("bob", "pw", DELETED)`
followed by `Login("bob", "pw")` returns no error, both credentials match their pattern and
verification accepts the hash, yet `CheckAccess(PUBLIC)` on the returned handle is false. -/
theorem DELETED_user_fails_PUBLIC_after_Login :
    defaultUsernameRegex "bob" = true ∧ defaultPassRegex "pw" = true
      ∧ markPrimitives.HashPassword "pw" = .ok "#pw"
      ∧ markPrimitives.CompareHashAndPassword "#pw" "pw" = none
      ∧ ((Init none none none).Add markPrimitives "bob" "pw" DELETED).2 = none
      ∧ ((((Init none none none).Add markPrimitives "bob" "pw" DELETED).1.Login
            markPrimitives "sid" "bob" "pw" []).map fun r => r.2) = some (.ok 0)
      ∧ ((((Init none none none).Add markPrimitives "bob" "pw" DELETED).1.Login
            markPrimitives "sid" "bob" "pw" []).bind fun r => User.CheckAccess r.1 0 PUBLIC)
          = some false := by
  refine ⟨by decide, by decide, rfl, by decide, rfl, rfl, rfl⟩

/-- C1 (amended): in a consistent store with no user named `u`, for `u` and `p` matching
their patterns and every access level `a` other than DELETED, when hashing `p` succeeds,
verification accepts that hash and the generated identifier is not bound yet, `Add(u, p, a)`
returns no error, the following `Login(u, p)` returns no error, and `CheckAccess(PUBLIC)` on
the returned handle is true. -/
theorem Add_Login_CheckAccess_PUBLIC (P : Primitives) (s : store) (u p uuid hash : String)
    (a : Int) (hc : s.Consistent) (hu : s.options.usernameRegex u = true)
    (hp : s.options.passRegex p = true) (hnew : ∀ e ∈ s.users, e.1 ≠ u)
    (hh : P.HashPassword p = .ok hash) (hv : P.CompareHashAndPassword hash p = none)
    (hfresh : mapLookup s.sessions uuid = none) (ha : a ≠ DELETED) :
    (s.Add P u p a).2 = none
      ∧ ∃ s2 q, (s.Add P u p a).1.Login P uuid u p [] = some (s2, .ok q)
          ∧ User.CheckAccess s2 q PUBLIC = some true := by
  rw [Add_fresh_state P s u p a hash hu hp hnew hh]
  refine ⟨rfl, _, s.next, Login_ok_of P _ uuid u p [] s.next hu hp ?_ ?_ ?_ ?_ ?_, ?_⟩
  · -- the registry scan finds the new record
    have hnone : List.find? (fun e : String × Ptr => decide (((Function.update s.heap s.next
        ({ Variables := some [], username := u, access := a, password := hash, store := true,
           session := "" } : User)) e.2).username = u)) s.users = none := by
      rw [List.find?_eq_none]
      intro e he
      have hlt := hc.users_allocated e he
      have hk := hc.key_username e he
      rw [Function.update_noteq (Nat.ne_of_lt hlt)]
      simpa [hk] using hnew e he
    simp [store.get, mapInsert, mapDelete_of_absent _ _ hnew, List.find?_append, hnone]
  · simpa using hv
  · simp
  · intro l hl
    have hnil : l = [] := by
      simp only [User.getSessions, Function.update_same, if_true, Option.some.injEq] at hl
      rw [← hl, List.map_eq_nil_iff, List.filter_eq_nil_iff]
      intro e he
      have hlt := hc.sessions_allocated e he
      obtain ⟨r, hr, hre⟩ := hc.session_registered e he
      have hk := hc.key_username r hr
      rw [Function.update_noteq (Nat.ne_of_lt hlt), ← hre, hk]
      simpa using hnew r hr
    subst hnil
    rintro ⟨h1, h2⟩
    rw [h1] at h2
    simp at h2
  · simpa [loginSessionID] using hfresh
  · have hacc : a ≠ -2 := ha
    simp [User.CheckAccess, store.loggedIn, hacc, PUBLIC]

/-- C1 (amended), at `Add("bob", "pw", USER)` on the initial store. -/
theorem Add_Login_CheckAccess_PUBLIC_witness :
    ((Init none none none).Add markPrimitives "bob" "pw" USER).2 = none
      ∧ ∃ s2 q, ((Init none none none).Add markPrimitives "bob" "pw" USER).1.Login
            markPrimitives "sid" "bob" "pw" [] = some (s2, .ok q)
          ∧ User.CheckAccess s2 q PUBLIC = some true :=
  Add_Login_CheckAccess_PUBLIC markPrimitives (Init none none none) "bob" "pw" "sid" "#pw" USER
    ⟨by simp [Init], by simp [Init], by simp [Init], by simp [Init]⟩
    (by decide) (by decide) (by simp [Init]) rfl (by decide) rfl (by decide)

/-! ## C2: a second `Add` of a registered username -/

/-- C2 (the code at the failing input): on the store that holds `bob`, the registry insertion
`add` of a second `bob` returns `ErrAlreadyExists`, and the public `Add("bob", "pw2", ADMIN)`,
whose credentials pass validation, returns the nil error to its caller. -/
theorem Add_registered_returns_nil :
    mapLookup ((Init none none none).Add markPrimitives "bob" "pw" USER).1.users "bob" = some 0
      ∧ defaultUsernameRegex "bob" = true ∧ defaultPassRegex "pw2" = true
      ∧ ((((Init none none none).Add markPrimitives "bob" "pw" USER).1.alloc
            { Variables := some [], username := "bob", access := ADMIN, password := "pw2",
              store := false, session := "" }).1.add markPrimitives 1).2
          = some .ErrAlreadyExists
      ∧ (((Init none none none).Add markPrimitives "bob" "pw" USER).1.Add
            markPrimitives "bob" "pw2" ADMIN).2 = none := by
  refine ⟨by decide, by decide, by decide, by decide, by decide⟩

/-! ## C3: a second `Add` changes nothing -/

theorem Add_frame_of_key (P : Primitives) (s : store) (u p : String) (a : Int)
    (hk : ∃ e ∈ s.users, e.1 = u) :
    (s.Add P u p a).1.users = s.users ∧ (s.Add P u p a).1.sessions = s.sessions
      ∧ ∀ r, r < s.next → (s.Add P u p a).1.heap r = s.heap r := by
  have hany : (s.users.any fun e => decide (u = e.1)) = true := by
    rw [List.any_eq_true]
    obtain ⟨e, he, rfl⟩ := hk
    exact ⟨e, he, by simp⟩
  have hupd : ∀ (x y : User) (r : Ptr), r < s.next →
      Function.update (Function.update s.heap s.next x) s.next y r = s.heap r := by
    intro x y r hr
    simp [Function.update_noteq (Nat.ne_of_lt hr)]
  simp only [store.Add, store.alloc, store.add, store.setUser, Function.update_same, hany,
    if_true]
  split
  · refine ⟨rfl, rfl, fun r hr => ?_⟩
    simp [Function.update_noteq (Nat.ne_of_lt hr)]
  · exact ⟨rfl, rfl, fun r hr => hupd _ _ r hr⟩

/-- C3: when the registry already maps `u` to the record `q`, `Add(u, p2, a2)` leaves the
registry and the session table as they were, so `u` is still mapped to `q`; `q` keeps its
password hash and its access level, and every record allocated before the call is unchanged. -/
theorem Add_registered_frame (P : Primitives) (s : store) (u p2 : String) (a2 : Int) (q : Ptr)
    (hq : mapLookup s.users u = some q) (hlt : q < s.next) :
    mapLookup (s.Add P u p2 a2).1.users u = some q
      ∧ ((s.Add P u p2 a2).1.heap q).password = (s.heap q).password
      ∧ ((s.Add P u p2 a2).1.heap q).access = (s.heap q).access
      ∧ (s.Add P u p2 a2).1.users = s.users
      ∧ (s.Add P u p2 a2).1.sessions = s.sessions
      ∧ ∀ r, r < s.next → (s.Add P u p2 a2).1.heap r = s.heap r := by
  have hk : ∃ e ∈ s.users, e.1 = u := by
    simp only [mapLookup, Option.map_eq_some'] at hq
    obtain ⟨e, he, _⟩ := hq
    exact ⟨e, List.mem_of_find?_eq_some he, by simpa using List.find?_some he⟩
  obtain ⟨h1, h2, h3⟩ := Add_frame_of_key P s u p2 a2 hk
  exact ⟨by rw [h1]; exact hq, by rw [h3 q hlt], by rw [h3 q hlt], h1, h2, h3⟩

/-- C3, at a second `Add("bob", "pw2", ADMIN)` on the store that holds `bob`. -/
theorem Add_registered_frame_witness :
    mapLookup ((((Init none none none).Add markPrimitives "bob" "pw" USER).1).Add
        markPrimitives "bob" "pw2" ADMIN).1.users "bob" = some 0
      ∧ (((((Init none none none).Add markPrimitives "bob" "pw" USER).1).Add
          markPrimitives "bob" "pw2" ADMIN).1.heap 0).password = "#pw" :=
  have h := Add_registered_frame markPrimitives
    ((Init none none none).Add markPrimitives "bob" "pw" USER).1 "bob" "pw2" ADMIN 0
    (by decide) (by decide)
  ⟨h.1, h.2.1.trans (by decide)⟩

/-! ## C4: `Add` with credentials that fail validation -/

theorem defaultUsernameRegex_of_mem {u : String} {c : Char} (hc : usernameClass c = false)
    (hm : c ∈ u.data) : defaultUsernameRegex u = false := by
  have hall : u.data.all usernameClass = false := by
    rw [List.all_eq_false]
    exact ⟨c, hm, by simp [hc]⟩
  simp [defaultUsernameRegex, hall]

/-- C4: when the username fails the username pattern or the password fails the password
pattern, and in particular, under the default patterns, when the username holds a space or
an `@` or the password is empty, `Add` returns `ErrInvalidUsernamePassword`, the registry and
the session table are what they were, and so is every record allocated before the call. -/
theorem Add_invalid_credentials (P : Primitives) (s : store) (u p : String) (a : Int)
    (h : s.options.usernameRegex u = false ∨ s.options.passRegex p = false
      ∨ (s.options.usernameRegex = defaultUsernameRegex ∧ (' ' ∈ u.data ∨ '@' ∈ u.data))
      ∨ (s.options.passRegex = defaultPassRegex ∧ p = "")) :
    (s.Add P u p a).2 = some .ErrInvalidUsernamePassword
      ∧ (s.Add P u p a).1.users = s.users
      ∧ (s.Add P u p a).1.sessions = s.sessions
      ∧ ∀ r, r < s.next → (s.Add P u p a).1.heap r = s.heap r := by
  have hv : s.options.usernameRegex u = false ∨ s.options.passRegex p = false := by
    rcases h with h | h | ⟨he, h | h⟩ | ⟨he, h⟩
    · exact Or.inl h
    · exact Or.inr h
    · exact Or.inl (by rw [he]; exact defaultUsernameRegex_of_mem (by decide) h)
    · exact Or.inl (by rw [he]; exact defaultUsernameRegex_of_mem (by decide) h)
    · exact Or.inr (by rw [he, h]; decide)
  have hcond : (!s.options.usernameRegex u || !s.options.passRegex p) = true := by
    rcases hv with hv | hv <;> simp [hv]
  simp only [store.Add, store.alloc, Function.update_same, hcond, if_true, true_and]
  intro r hr
  exact Function.update_noteq (Nat.ne_of_lt hr) _ _

/-- C4, at `Add("@u ser", "test", USER)` on the initial store with the default patterns. -/
theorem Add_invalid_credentials_witness :
    ((Init none none none).Add markPrimitives "@u ser" "test" USER).2
        = some .ErrInvalidUsernamePassword
      ∧ ((Init none none none).Add markPrimitives "@u ser" "test" USER).1.users = [] :=
  have h := Add_invalid_credentials markPrimitives (Init none none none) "@u ser" "test" USER
    (Or.inr (Or.inr (Or.inl ⟨rfl, Or.inl (by decide)⟩)))
  ⟨h.1, h.2.1⟩

/-! ## C5: a `Login` rejected by the session table -/

/-- C5 (the code at the failing input): `bob` holds the valid session `s1` and `eve` the
session `s2`; `Login("bob", "pw", "s2")` fails with `ErrAlreadyAuthenticated` and leaves the
session table as it was, but the record of `bob` now holds `s2` instead of `s1`, and the
session check on `bob`, true before the call, is false after it. -/
theorem Login_bound_session_overwrites :
    (boundSessionRun.map fun r =>
        (r.2.2, r.2.1.sessions, (r.1.heap 0).session, (r.2.1.heap 0).session,
          User.validateSession r.1 0, User.validateSession r.2.1 0,
          mapLookup r.1.sessions "s1", mapLookup r.2.1.sessions "s1"))
      = some (.error .ErrAlreadyAuthenticated, [("s1", 0), ("s2", 1)], "s1", "s2",
          some true, some false, some 0, some 0) := by
  rfl

/-! ## C6: `LogOut` -/

/-- C6 (the code at the failing input): `eve` holds the valid session `x`, the handle of
`bob` still records the identifier `x` of a session it logged out of; `LogOut` on the handle
of `bob` removes the binding of `x` to `eve`, and the session check on `eve` turns false. -/
theorem LogOut_stale_handle_revokes_other :
    (staleLogOutRun.map fun r =>
        (r.1.sessions, User.validateSession r.1 0, User.validateSession r.1 1,
          mapLookup r.1.sessions "x", r.2.sessions, User.validateSession r.2 1))
      = some ([("x", 1)], some false, some true, some 1, [], some false) := by
  rfl

/-! ## C7: the handle a successful `Login` returns -/

theorem get_ok_inv (s : store) (u : String) (q : Ptr) (h : s.get u = .ok q) :
    (∃ k, (k, q) ∈ s.users) ∧ (s.heap q).username = u := by
  unfold store.get at h
  split at h
  · rename_i e he
    simp only [Except.ok.injEq] at h
    subst h
    exact ⟨⟨e.1, List.mem_of_find?_eq_some he⟩, by simpa using List.find?_some he⟩
  · simp at h

/-- C7: when `Login(u, p)` or `Login(u, p, sid)` returns no error and the handle `q`, then `q`
is a record of the registry whose username is `u`; the session table binds the identifier
recorded in `q` to `q`, so `UserFromID` of it returns `q`; that identifier is `sid` when exactly
one was passed; the session check on `q` is true; and `Session()` returns the identifier and
leaves the state as it is. -/
theorem Login_ok_valid_session (P : Primitives) (s s2 : store) (uuid u p : String)
    (sids : List String) (q : Ptr) (h : s.Login P uuid u p sids = some (s2, .ok q)) :
    ((∃ k, (k, q) ∈ s2.users) ∧ (s2.heap q).username = u)
      ∧ mapLookup s2.sessions (s2.heap q).session = some q
      ∧ s2.UserFromID (s2.heap q).session = .ok q
      ∧ (∀ sid, sids = [sid] → (s2.heap q).session = sid)
      ∧ User.validateSession s2 q = some true
      ∧ User.Session s2 q = some (s2, (s2.heap q).session) := by
  obtain ⟨_, _, hget, _, hst, _, rfl⟩ := Login_ok_inv P s s2 uuid u p sids q h
  obtain ⟨hreg, hname⟩ := get_ok_inv s u q hget
  have hsess : ((s.loggedIn q (loginSessionID uuid sids)).heap q).session
      = loginSessionID uuid sids := by simp [store.loggedIn]
  have hval := validateSession_loggedIn s q (loginSessionID uuid sids) hst
  rw [hsess]
  refine ⟨⟨hreg, by simpa [store.loggedIn] using hname⟩, ?_, UserFromID_loggedIn _ _ _, ?_,
    hval, ?_⟩
  · exact mapLookup_mapInsert_self _ _ _
  · rintro sid rfl
    rfl
  · simp [User.Session, hval, hsess]

/-- C7, at `Login("bob", "pw", "s1")` on the store that holds `bob` and `eve`. -/
theorem Login_ok_valid_session_witness :
    User.validateSession (twoUsers.loggedIn 0 "s1") 0 = some true
      ∧ ((twoUsers.loggedIn 0 "s1").heap 0).session = "s1" :=
  have h := Login_ok_valid_session markPrimitives twoUsers (twoUsers.loggedIn 0 "s1") "g1"
    "bob" "pw" ["s1"] 0 rfl
  ⟨h.2.2.2.2.1, h.2.2.2.1 "s1" rfl⟩

/-! ## C8 and C9: `CheckAccess` -/

theorem validateSession_total (s : store) (h : Ptr) (hst : (s.heap h).store = true) :
    ∃ valid, User.validateSession s h = some valid := by
  simp only [User.validateSession, User.getSessions, hst, if_true]
  split
  · split
    · exact ⟨_, rfl⟩
    · exact ⟨_, rfl⟩
  · exact ⟨_, rfl⟩

/-- C8: on a handle whose store is set, the session check has a result `valid`, and
`CheckAccess(L)` is false when the access level is DELETED, otherwise true when `L` is PUBLIC,
otherwise true exactly when the access level is at most `L` and `valid` holds; so with an
invalid session every check but a PUBLIC one fails. -/
theorem CheckAccess_decision_table (s : store) (h : Ptr) (L : Int)
    (hst : (s.heap h).store = true) :
    ∃ valid, User.validateSession s h = some valid
      ∧ User.CheckAccess s h L = some (decide ((s.heap h).access ≠ DELETED
          ∧ (L = PUBLIC ∨ ((s.heap h).access ≤ L ∧ valid = true))))
      ∧ (valid = false → L ≠ PUBLIC → User.CheckAccess s h L = some false) := by
  obtain ⟨valid, hv⟩ := validateSession_total s h hst
  refine ⟨valid, hv, ?_, ?_⟩
  · unfold User.CheckAccess
    simp only [DELETED, PUBLIC, hv]
    by_cases h1 : (s.heap h).access = -2
    · simp [h1]
    · by_cases h2 : L = -1
      · simp [h1, h2]
      · by_cases h3 : (s.heap h).access > L
        · have h3n : ¬ (s.heap h).access ≤ L := not_le.mpr h3
          simp [h1, h2, h3, h3n]
        · have h3n : (s.heap h).access ≤ L := not_lt.mp h3
          cases valid <;> simp [h1, h2, h3, h3n]
  · intro hf hL
    have hL2 : ¬ L = -1 := hL
    subst hf
    unfold User.CheckAccess
    simp only [hv, hL2]
    by_cases h1 : (s.heap h).access = -2
    · simp [h1]
    · by_cases h3 : (s.heap h).access > L <;> simp [h1, h3]

/-- C8, at `CheckAccess(ADMIN)` on the logged-in handle of `bob`, whose access level is USER. -/
theorem CheckAccess_decision_table_witness :
    ∃ valid, User.validateSession (bobLoggedIn USER) 0 = some valid
      ∧ User.CheckAccess (bobLoggedIn USER) 0 ADMIN
          = some (decide (((bobLoggedIn USER).heap 0).access ≠ DELETED
              ∧ (ADMIN = PUBLIC ∨ (((bobLoggedIn USER).heap 0).access ≤ ADMIN ∧ valid = true))))
      ∧ (valid = false → ADMIN ≠ PUBLIC
          → User.CheckAccess (bobLoggedIn USER) 0 ADMIN = some false) :=
  CheckAccess_decision_table (bobLoggedIn USER) 0 ADMIN (by decide)

/-- C9 (as stated, refuted): the handle of `bob`, added with the access level DELETED, which
is at most ADMIN, has a live session after `Login`, and `CheckAccess(ADMIN)` on it is false. -/
theorem CheckAccess_ADMIN_DELETED_live :
    DELETED ≤ ADMIN ∧ ((bobLoggedIn DELETED).heap 0).access = DELETED
      ∧ User.validateSession (bobLoggedIn DELETED) 0 = some true
      ∧ User.CheckAccess (bobLoggedIn DELETED) 0 ADMIN = some false := by
  refine ⟨by decide, by decide, by decide, by decide⟩

/-- C9 (amended): on a handle with a live session, `CheckAccess(ADMIN)` is false when the
access level is USER, and true when the access level is at most ADMIN and is not DELETED. -/
theorem CheckAccess_ADMIN_live (s : store) (h : Ptr)
    (hlive : User.validateSession s h = some true) :
    ((s.heap h).access = USER → User.CheckAccess s h ADMIN = some false)
      ∧ ((s.heap h).access ≤ ADMIN → (s.heap h).access ≠ DELETED
          → User.CheckAccess s h ADMIN = some true) := by
  constructor
  · intro ha
    simp [User.CheckAccess, ha, USER, ADMIN]
  · intro hle hne
    have h1 : ¬ (s.heap h).access = -2 := hne
    have h2 : ¬ (s.heap h).access > 0 := not_lt.mpr hle
    simp [User.CheckAccess, ADMIN, h1, h2, hlive]

/-- C9 (amended), on the logged-in handles of `bob` with the access levels USER and ADMIN. -/
theorem CheckAccess_ADMIN_live_witness :
    User.CheckAccess (bobLoggedIn USER) 0 ADMIN = some false
      ∧ User.CheckAccess (bobLoggedIn ADMIN) 0 ADMIN = some true :=
  ⟨(CheckAccess_ADMIN_live (bobLoggedIn USER) 0 (by decide)).1 (by decide),
    (CheckAccess_ADMIN_live (bobLoggedIn ADMIN) 0 (by decide)).2 (by decide) (by decide)⟩

/-! ## C10: `ChangePassword` without a valid session -/

theorem RemoveSessions_eq (s : store) (l : List String) :
    s.RemoveSessions l
      = { s with sessions := s.sessions.filter (fun e => decide (e.1 ∉ l)) } := by
  induction l generalizing s with
  | nil => simp [store.RemoveSessions]
  | cons x xs ih =>
    have hstep : s.RemoveSessions (x :: xs)
        = store.RemoveSessions { s with sessions := mapDelete s.sessions x } xs := rfl
    rw [hstep, ih]
    simp only [mapDelete, List.filter_filter, List.mem_cons, not_or]
    congr 1
    apply List.filter_congr
    intro e _
    by_cases h1 : e.1 = x <;> by_cases h2 : e.1 ∈ xs <;> simp [h1, h2]

theorem validateSession_of_not_key (s : store) (h : Ptr) (hst : (s.heap h).store = true)
    (hk : ∀ e ∈ s.sessions, (s.heap e.2).username = (s.heap h).username →
      e.1 ≠ (s.heap h).session) :
    User.validateSession s h = some false := by
  have hnone : List.find? (fun session => decide (session = (s.heap h).session))
      ((s.sessions.filter (fun e => decide ((s.heap e.2).username = (s.heap h).username))).map
        (fun e => e.1)) = none := by
    rw [List.find?_eq_none]
    intro x hx
    simp only [List.mem_map, List.mem_filter, decide_eq_true_eq] at hx
    obtain ⟨e, ⟨he, hu⟩, rfl⟩ := hx
    simpa using hk e he hu
  simp only [User.validateSession, User.getSessions, hst, if_true, hnone]

theorem ChangePassword_of_invalid (P : Primitives) (s : store) (h : Ptr) (p : String)
    (hv : User.validateSession s h = some false) :
    User.ChangePassword P s h p = some (s, some .ErrNotAllowed) := by
  simp [User.ChangePassword, hv]

/-- C10: on a handle whose store is set, `ChangePassword(p)` returns `ErrNotAllowed` and leaves
the whole state, so the stored password hash, as it was whenever the session check is false;
`LogOut()` and `LogOutFully()` both return, the session check is false in the state they
leave, and `ChangePassword(p)` in that state returns `ErrNotAllowed` and changes nothing. -/
theorem ChangePassword_without_session (P : Primitives) (s : store) (h : Ptr) (p : String)
    (hst : (s.heap h).store = true) :
    (User.validateSession s h = some false
        → User.ChangePassword P s h p = some (s, some .ErrNotAllowed))
      ∧ (∃ s1, User.LogOut s h = some s1 ∧ User.validateSession s1 h = some false
          ∧ User.ChangePassword P s1 h p = some (s1, some .ErrNotAllowed)
          ∧ (s1.heap h).password = (s.heap h).password)
      ∧ (∃ s1, User.LogOutFully s h = some s1 ∧ User.validateSession s1 h = some false
          ∧ User.ChangePassword P s1 h p = some (s1, some .ErrNotAllowed)
          ∧ (s1.heap h).password = (s.heap h).password) := by
  refine ⟨ChangePassword_of_invalid P s h p, ?_, ?_⟩
  · have hv : User.validateSession (s.RemoveSessions [(s.heap h).session]) h = some false := by
      rw [RemoveSessions_eq]
      apply validateSession_of_not_key
      · exact hst
      · intro e he _
        simp only [List.mem_filter] at he
        simpa using he.2
    exact ⟨_, by simp [User.LogOut, hst], hv, ChangePassword_of_invalid P _ h p hv,
      by rw [RemoveSessions_eq]⟩
  · have hg : User.getSessions s h = some ((s.sessions.filter
        (fun e => decide ((s.heap e.2).username = (s.heap h).username))).map
          (fun e => e.1)) := by
      simp [User.getSessions, hst]
    have hv : User.validateSession (s.RemoveSessions ((s.sessions.filter
        (fun e => decide ((s.heap e.2).username = (s.heap h).username))).map
          (fun e => e.1))) h = some false := by
      rw [RemoveSessions_eq]
      apply validateSession_of_not_key
      · exact hst
      · intro e he hu
        simp only [List.mem_filter, List.mem_map, decide_eq_true_eq, decide_not,
          Bool.not_eq_true', decide_eq_false_iff_not, not_exists, not_and] at he
        exact absurd rfl (he.2 e ⟨he.1, hu⟩)
    exact ⟨_, by simp [User.LogOutFully, hg], hv, ChangePassword_of_invalid P _ h p hv,
      by rw [RemoveSessions_eq]⟩

/-- C10, on the logged-in handle of `bob` with the password `test2`. -/
theorem ChangePassword_without_session_witness :
    ∃ s1, User.LogOut (bobLoggedIn USER) 0 = some s1
      ∧ User.validateSession s1 0 = some false
      ∧ User.ChangePassword markPrimitives s1 0 "test2" = some (s1, some .ErrNotAllowed)
      ∧ (s1.heap 0).password = ((bobLoggedIn USER).heap 0).password :=
  (ChangePassword_without_session markPrimitives (bobLoggedIn USER) 0 "test2"
    (by decide)).2.1

/-! ## C11: `ChangePassword` when password changes are disabled -/

/-- C11 (as stated, refuted): with `AllowPasswordChange = false` and a valid session,
`ChangePassword("")` returns `ErrInvalidUsernamePassword`, not `ErrNotAllowed`. -/
theorem disabled_store_rejects_empty_password :
    disabledLoggedIn.options.UserSettings.AllowPasswordChange = false
      ∧ User.validateSession disabledLoggedIn 0 = some true
      ∧ (User.ChangePassword markPrimitives disabledLoggedIn 0 "").map (fun r => r.2)
          = some (some .ErrInvalidUsernamePassword) := by
  refine ⟨by decide, by decide, by decide⟩

/-- C11 (amended): with `AllowPasswordChange = false`, on a handle whose store is set,
`ChangePassword(p)` returns an error and leaves the whole state, so the stored password hash,
as it was; the error is `ErrInvalidUsernamePassword` exactly when the session is valid and the
username or `p` fails its pattern, and `ErrNotAllowed` otherwise. -/
theorem ChangePassword_disabled (P : Primitives) (s : store) (h : Ptr) (p : String)
    (hst : (s.heap h).store = true)
    (hoff : s.options.UserSettings.AllowPasswordChange = false) :
    ∃ err, User.ChangePassword P s h p = some (s, some err)
      ∧ (err = .ErrNotAllowed ∨ err = .ErrInvalidUsernamePassword)
      ∧ (err = .ErrInvalidUsernamePassword ↔
          (User.validateSession s h = some true
            ∧ (s.options.usernameRegex (s.heap h).username = false
                ∨ s.options.passRegex p = false))) := by
  obtain ⟨valid, hv⟩ := validateSession_total s h hst
  cases valid with
  | false =>
    exact ⟨.ErrNotAllowed, by simp [User.ChangePassword, hv], Or.inl rfl, by simp [hv]⟩
  | true =>
    by_cases hbad : s.options.usernameRegex (s.heap h).username = false
        ∨ s.options.passRegex p = false
    · refine ⟨.ErrInvalidUsernamePassword, ?_, Or.inr rfl, by simp [hv, hbad]⟩
      have hc : (!s.options.usernameRegex (s.heap h).username || !s.options.passRegex p)
          = true := by
        rcases hbad with hb | hb <;> simp [hb]
      simp [User.ChangePassword, hv, hc]
    · have hc : (!s.options.usernameRegex (s.heap h).username || !s.options.passRegex p)
          = false := by
        simp only [not_or, Bool.not_eq_false] at hbad
        simp [hbad.1, hbad.2]
      exact ⟨.ErrNotAllowed, by simp [User.ChangePassword, hv, hc, hoff], Or.inl rfl,
        by simp [hbad]⟩

/-- C11 (amended), at `ChangePassword("test2")` on the logged-in handle of the store with
password changes disabled. -/
theorem ChangePassword_disabled_witness :
    ∃ err, User.ChangePassword markPrimitives disabledLoggedIn 0 "test2"
        = some (disabledLoggedIn, some err)
      ∧ (err = .ErrNotAllowed ∨ err = .ErrInvalidUsernamePassword)
      ∧ (err = .ErrInvalidUsernamePassword ↔
          (User.validateSession disabledLoggedIn 0 = some true
            ∧ (disabledLoggedIn.options.usernameRegex (disabledLoggedIn.heap 0).username = false
                ∨ disabledLoggedIn.options.passRegex "test2" = false))) :=
  ChangePassword_disabled markPrimitives disabledLoggedIn 0 "test2" (by decide) (by decide)

/-! ## C12: a successful `ChangePassword` -/

theorem ChangePassword_ok_inv (P : Primitives) (s s1 : store) (h : Ptr) (q : String)
    (hcp : User.ChangePassword P s h q = some (s1, none)) :
    User.validateSession s h = some true
      ∧ s.options.usernameRegex (s.heap h).username = true
      ∧ s.options.passRegex q = true
      ∧ s.options.UserSettings.AllowPasswordChange = true
      ∧ ∃ d, P.HashPassword q = .ok d
          ∧ s1 = s.setUser h (fun u => { u with password := d }) := by
  unfold User.ChangePassword at hcp
  split at hcp
  · simp at hcp
  · rename_i valid hv
    split at hcp
    · simp at hcp
    · rename_i hvalid
      split at hcp
      · simp at hcp
      · rename_i hre
        split at hcp
        · simp at hcp
        · rename_i hallow
          split at hcp
          · simp at hcp
          · rename_i d hd
            simp only [Bool.not_eq_true', Bool.not_eq_false, Bool.or_eq_true, not_or] at hvalid hre hallow
            simp only [Option.some.injEq, Prod.mk.injEq, and_true] at hcp
            subst hvalid
            exact ⟨hv, hre.1, hre.2, hallow, d, hd, hcp.symm⟩

theorem get_setUser (s : store) (h : Ptr) (f : User → User) (u : String)
    (hf : (f (s.heap h)).username = (s.heap h).username) :
    (s.setUser h f).get u = s.get u := by
  have hp : (fun e : String × Ptr => decide (((s.setUser h f).heap e.2).username = u))
      = (fun e : String × Ptr => decide ((s.heap e.2).username = u)) := by
    funext e
    by_cases he : e.2 = h
    · simp [store.setUser, he, hf]
    · simp [store.setUser, Function.update_noteq he]
  simp only [store.get, hp]
  rfl

theorem Login_error_of_mismatch (P : Primitives) (s : store) (uuid u p : String)
    (sids : List String) (h : Ptr) (hget : s.get u = .ok h)
    (hcmp : P.CompareHashAndPassword (s.heap h).password p ≠ none) :
    ∃ err, s.Login P uuid u p sids = some (s, .error err) := by
  unfold store.Login
  split
  · exact ⟨_, rfl⟩
  · simp only [store.UserFromUsername, hget]
    split
    · exact ⟨_, rfl⟩
    · rename_i hc
      exact absurd hc hcmp

theorem mark_append_inj (x y : String) : "#" ++ x = "#" ++ y ↔ x = y := by
  constructor
  · intro h
    have hd := congrArg String.data h
    simp only [String.data_append, List.append_cancel_left_eq] at hd
    exact String.ext hd
  · rintro rfl
    rfl

/-- C12: when `ChangePassword(q)` returns no error on the record `h` that the registry returns
for `u`, and verification accepts a hash exactly for the password it was made from, the stored
password is the hash of `q`; the username, the access level, the registry and the session table
are what they were; a following `Login(u, q)` whose identifier is not bound yet and which does
not hit the session limit returns `h` with no error; and a following `Login(u, old)` with
`old ≠ q` returns an error. -/
theorem ChangePassword_ok_then_Login (P : Primitives) (s s1 : store) (h : Ptr) (u q : String)
    (hget : s.get u = .ok h) (hcp : User.ChangePassword P s h q = some (s1, none))
    (hverify : ∀ x d y, P.HashPassword x = .ok d →
      (P.CompareHashAndPassword d y = none ↔ x = y)) :
    (∃ d, P.HashPassword q = .ok d ∧ (s1.heap h).password = d)
      ∧ (s1.heap h).username = (s.heap h).username
      ∧ (s1.heap h).access = (s.heap h).access
      ∧ s1.users = s.users ∧ s1.sessions = s.sessions
      ∧ (∀ uuid sids,
          (∀ l, User.getSessions s1 h = some l →
            ¬ (s1.options.UserSettings.MaxSessions = (l.length : Int)
                ∧ s1.options.UserSettings.MaxSessions > 0)) →
          mapLookup s1.sessions (loginSessionID uuid sids) = none →
          s1.Login P uuid u q sids
            = some (s1.loggedIn h (loginSessionID uuid sids), .ok h))
      ∧ (∀ uuid sids old, old ≠ q →
          ∃ err, s1.Login P uuid u old sids = some (s1, .error err)) := by
  obtain ⟨hval, hu, hp, _, d, hd, rfl⟩ := ChangePassword_ok_inv P s _ h q hcp
  have hname : (s.heap h).username = u := (get_ok_inv s u h hget).2
  have hget1 : (s.setUser h (fun x => { x with password := d })).get u = .ok h := by
    rw [get_setUser s h _ u rfl]
    exact hget
  have hst : (s.heap h).store = true := by
    by_contra hne
    simp [User.validateSession, User.getSessions, hne] at hval
  have hpw : ((s.setUser h (fun x => { x with password := d })).heap h).password = d := by
    simp [store.setUser]
  refine ⟨⟨d, hd, hpw⟩, by simp [store.setUser], by simp [store.setUser], rfl, rfl, ?_, ?_⟩
  · intro uuid sids hlim hfree
    apply Login_ok_of P _ uuid u q sids h _ _ hget1 _ _ hlim hfree
    · rw [← hname]; exact hu
    · exact hp
    · rw [hpw]; exact (hverify q d q hd).2 rfl
    · simpa [store.setUser] using hst
  · intro uuid sids old hold
    apply Login_error_of_mismatch P _ uuid u old sids h hget1
    rw [hpw]
    intro hc
    exact hold ((hverify q d old hd).1 hc).symm

/-- C12, at `ChangePassword("test1")` on the logged-in handle of `bob`. -/
theorem ChangePassword_ok_then_Login_witness :
    ∃ d, markPrimitives.HashPassword "test1" = .ok d
      ∧ (((bobLoggedIn USER).setUser 0 fun x => { x with password := "#test1" }).heap 0).password
          = d :=
  (ChangePassword_ok_then_Login markPrimitives (bobLoggedIn USER)
    ((bobLoggedIn USER).setUser 0 fun x => { x with password := "#test1" }) 0 "bob" "test1"
    rfl rfl
    (by
      intro x d y hx
      simp only [markPrimitives, Except.ok.injEq] at hx
      subst hx
      simp [markPrimitives, mark_append_inj])).1

/-! ## C19: `Session` -/

theorem setUser_of_fixed (s : store) (h : Ptr) (f : User → User) (hf : f (s.heap h) = s.heap h) :
    s.setUser h f = s := by
  simp [store.setUser, hf]

/-- C19: on a handle whose store is set, `Session()` returns; if the session check is true it
returns the recorded identifier and the state is unchanged; if the check is false it returns
the empty string and the only change is that the record now holds the empty string, the
registry and the session table being what they were; and a second call returns the same value
and leaves the state of the first call as it is. -/
theorem Session_self_healing (s : store) (h : Ptr) (hst : (s.heap h).store = true) :
    (User.validateSession s h = some true →
        User.Session s h = some (s, (s.heap h).session))
      ∧ (User.validateSession s h = some false →
          User.Session s h = some (s.setUser h (fun u => { u with session := "" }), "")
            ∧ (s.setUser h (fun u => { u with session := "" })).users = s.users
            ∧ (s.setUser h (fun u => { u with session := "" })).sessions = s.sessions
            ∧ ((s.setUser h (fun u => { u with session := "" })).heap h).session = "")
      ∧ ∃ s1 v, User.Session s h = some (s1, v) ∧ User.Session s1 h = some (s1, v) := by
  have hT : ∀ t : store, User.validateSession t h = some true →
      User.Session t h = some (t, (t.heap h).session) := by
    intro t hv
    simp [User.Session, hv]
  have hF : ∀ t : store, User.validateSession t h = some false →
      User.Session t h = some (t.setUser h (fun u => { u with session := "" }), "") := by
    intro t hv
    simp [User.Session, hv, store.setUser]
  refine ⟨hT s, fun hv => ⟨hF s hv, rfl, rfl, by simp [store.setUser]⟩, ?_⟩
  obtain ⟨valid, hv⟩ := validateSession_total s h hst
  cases valid with
  | true => exact ⟨s, _, hT s hv, hT s hv⟩
  | false =>
    refine ⟨_, _, hF s hv, ?_⟩
    have hst1 : ((s.setUser h (fun u => { u with session := "" })).heap h).store = true := by
      simpa [store.setUser] using hst
    have hs1 : ((s.setUser h (fun u => { u with session := "" })).heap h).session = "" := by
      simp [store.setUser]
    obtain ⟨valid1, hv1⟩ := validateSession_total _ h hst1
    cases valid1 with
    | true =>
      have := hT _ hv1
      rw [hs1] at this
      exact this
    | false =>
      have hfix : (s.setUser h (fun u => { u with session := "" })).setUser h
          (fun u => { u with session := "" })
          = s.setUser h (fun u => { u with session := "" }) :=
        setUser_of_fixed _ h _ (by simp [store.setUser])
      have := hF _ hv1
      rw [hfix] at this
      exact this

/-- C19, on the handle of `bob` after `Login` and `LogOut`. -/
theorem Session_self_healing_witness :
    ∃ s1 v, User.Session ((bobLoggedIn USER).RemoveSessions ["s1"]) 0 = some (s1, v)
      ∧ User.Session s1 0 = some (s1, v) :=
  (Session_self_healing ((bobLoggedIn USER).RemoveSessions ["s1"]) 0 (by decide)).2.2

/-! ## C18: the default patterns -/

theorem usernameClass_eq (c : Char) :
    usernameClass c
      = (c.isAlpha || c.isDigit || decide (c = '+') || decide (c = '.') || decide (c = '_')) := by
  simp only [usernameClass, Char.isAlpha, Char.isUpper, Char.isLower, Char.isDigit]
  rw [Bool.eq_iff_iff]
  simp only [decide_eq_true_eq, Bool.or_eq_true, Bool.and_eq_true, ge_iff_le, Char.le_def]
  tauto

theorem defaultUsernameRegex_eq_false (u : String) :
    defaultUsernameRegex u = false ↔
      u = "" ∨ ∃ c ∈ u.data,
        ¬ (c.isAlpha = true ∨ c.isDigit = true ∨ c = '+' ∨ c = '.' ∨ c = '_') := by
  have hempty : u = "" ↔ u.data = [] := by
    constructor
    · rintro rfl
      rfl
    · intro h
      exact String.ext h
  rw [hempty]
  cases hd : u.data with
  | nil => simp [defaultUsernameRegex, hd]
  | cons x xs =>
    simp only [defaultUsernameRegex, hd, List.isEmpty_cons, Bool.not_false, Bool.true_and,
      List.all_eq_false, usernameClass_eq, false_or, reduceCtorEq]
    simp only [Bool.or_eq_true, decide_eq_true_eq, or_assoc]

theorem defaultPassRegex_eq_false (p : String) :
    defaultPassRegex p = false ↔ ∀ c ∈ p.data, c = Char.ofNat 10 := by
  simp [defaultPassRegex]

theorem Add_invalid_iff (P : Primitives) (s : store) (u p : String) (a : Int) :
    (s.Add P u p a).2 = some .ErrInvalidUsernamePassword ↔
      (s.options.usernameRegex u = false ∨ s.options.passRegex p = false) := by
  simp only [store.Add, store.alloc, Function.update_same]
  split
  · rename_i hc
    simp only [Bool.or_eq_true, Bool.not_eq_true'] at hc
    simp [hc]
  · rename_i hc
    simp only [Bool.or_eq_true, Bool.not_eq_true'] at hc
    simp [hc]

theorem Login_invalid_iff (P : Primitives) (s : store) (uuid u p : String) (sids : List String)
    (hP : ∀ d x e, P.CompareHashAndPassword d x = some e → e ≠ .ErrInvalidUsernamePassword) :
    (∃ s1, s.Login P uuid u p sids = some (s1, .error .ErrInvalidUsernamePassword)) ↔
      (s.options.usernameRegex u = false ∨ s.options.passRegex p = false) := by
  unfold store.Login
  split
  · rename_i hc
    simp only [Bool.or_eq_true, Bool.not_eq_true'] at hc
    simp [hc]
  · rename_i hc
    simp only [Bool.or_eq_true, Bool.not_eq_true'] at hc
    simp only [hc, iff_false, not_exists]
    intro s1
    simp only [store.UserFromUsername, store.get]
    split
    · rename_i e he
      split at he <;> simp at he
      simp [← he]
    · rename_i user he
      split
      · rename_i err hcmp
        have := hP _ _ _ hcmp
        simpa using fun _ h => this h
      · split
        · simp
        · split
          · simp
          · simp only [store.newSession]
            split
            · rename_i hns
              split at hns
              · simp only [Prod.mk.injEq, Option.some.injEq] at hns
                simp [← hns.2]
              · simp at hns
            · simp

/-- C18 (as stated, refuted): with the default configuration the username `bob` is made of
letters and the password of one line feed is not empty, yet `Add` and `Login` reject the pair
with `ErrInvalidUsernamePassword`. -/
theorem line_feed_password_rejected :
    defaultUsernameRegex "bob" = true ∧ lineFeedPassword ≠ ""
      ∧ ((Init none none none).Add markPrimitives "bob" lineFeedPassword USER).2
          = some .ErrInvalidUsernamePassword
      ∧ (((Init none none none).Login markPrimitives "g1" "bob" lineFeedPassword []).map
          fun r => r.2) = some (.error .ErrInvalidUsernamePassword) := by
  refine ⟨by decide, by decide, by decide, rfl⟩

/-- C18 (amended): with the default patterns, `Add(u, p, a)` returns
`ErrInvalidUsernamePassword`, and `Login(u, p)` returns it when verification never does, if and
only if `u` is empty, or `u` holds a character other than an ASCII letter, an ASCII digit, `+`,
`.` or `_`, or `p` holds no character other than the line feed (so the empty password is
rejected, and every password with another character is accepted). -/
theorem default_validation (P : Primitives) (s : store) (u p uuid : String) (a : Int)
    (sids : List String)
    (hur : s.options.usernameRegex = defaultUsernameRegex)
    (hpr : s.options.passRegex = defaultPassRegex)
    (hP : ∀ d x e, P.CompareHashAndPassword d x = some e → e ≠ .ErrInvalidUsernamePassword) :
    ((s.Add P u p a).2 = some .ErrInvalidUsernamePassword ↔
        ((u = "" ∨ ∃ c ∈ u.data,
            ¬ (c.isAlpha = true ∨ c.isDigit = true ∨ c = '+' ∨ c = '.' ∨ c = '_'))
          ∨ ∀ c ∈ p.data, c = Char.ofNat 10))
      ∧ ((∃ s1, s.Login P uuid u p sids = some (s1, .error .ErrInvalidUsernamePassword)) ↔
        ((u = "" ∨ ∃ c ∈ u.data,
            ¬ (c.isAlpha = true ∨ c.isDigit = true ∨ c = '+' ∨ c = '.' ∨ c = '_'))
          ∨ ∀ c ∈ p.data, c = Char.ofNat 10)) := by
  rw [Add_invalid_iff, Login_invalid_iff P s uuid u p sids hP, hur, hpr,
    defaultUsernameRegex_eq_false, defaultPassRegex_eq_false]
  exact ⟨Iff.rfl, Iff.rfl⟩

/-- C18 (amended), at `Add("bob", "", USER)` on the initial store. -/
theorem default_validation_witness :
    ((Init none none none).Add markPrimitives "bob" "" USER).2
      = some .ErrInvalidUsernamePassword :=
  (default_validation markPrimitives (Init none none none) "bob" "" "g1" USER [] rfl rfl
    (by
      intro d x e he
      simp only [markPrimitives] at he
      split at he
      · simp at he
      · simp only [Option.some.injEq] at he
        simp [← he])).1.2 (Or.inr (by simp))

/-! ## C13: the session limit -/

theorem uniqueKeys_value {m : List (String × Ptr)} (hm : uniqueKeys m) {k : String} {a b : Ptr}
    (ha : (k, a) ∈ m) (hb : (k, b) ∈ m) : a = b := by
  have := List.inj_on_of_nodup_map hm ha hb rfl
  simpa using this

theorem get_registered (s : store) (hc : s.Consistent) (u : String) (h : Ptr)
    (hget : s.get u = .ok h) : (u, h) ∈ s.users ∧ (s.heap h).username = u := by
  obtain ⟨⟨k, hk⟩, hname⟩ := get_ok_inv s u h hget
  have := hc.key_username _ hk
  simp only [hname] at this
  subst this
  exact ⟨hk, hname⟩

theorem same_username_same_record (s : store) (hc : s.Consistent) (huk : uniqueKeys s.users)
    (h : Ptr) (hreg : ((s.heap h).username, h) ∈ s.users) (e : String × Ptr)
    (he : e ∈ s.sessions) :
    (s.heap e.2).username = (s.heap h).username ↔ e.2 = h := by
  constructor
  · intro hname
    obtain ⟨r, hr, hre⟩ := hc.session_registered e he
    have hk := hc.key_username r hr
    rw [hre, hname] at hk
    have hmem : ((s.heap h).username, e.2) ∈ s.users := by
      rw [← hre, hk]
      exact hr
    exact uniqueKeys_value huk hmem hreg
  · intro h1
    rw [h1]

theorem getSessions_of_record (s : store) (hc : s.Consistent) (huk : uniqueKeys s.users)
    (h : Ptr) (hreg : ((s.heap h).username, h) ∈ s.users) (hst : (s.heap h).store = true) :
    User.getSessions s h
      = some ((s.sessions.filter (fun e => decide (e.2 = h))).map (fun e => e.1)) := by
  simp only [User.getSessions, hst, if_true, Option.some.injEq]
  congr 1
  apply List.filter_congr
  intro e he
  simp only [same_username_same_record s hc huk h hreg e he]

theorem LogOutFully_sessions (s : store) (hc : s.Consistent) (huk : uniqueKeys s.users)
    (hus : uniqueKeys s.sessions) (h : Ptr) (hreg : ((s.heap h).username, h) ∈ s.users)
    (hst : (s.heap h).store = true) :
    User.LogOutFully s h
      = some { s with sessions := s.sessions.filter (fun e => decide (e.2 ≠ h)) } := by
  simp only [User.LogOutFully, getSessions_of_record s hc huk h hreg hst, RemoveSessions_eq,
    Option.some.injEq]
  congr 1
  apply List.filter_congr
  intro e he
  by_cases h1 : e.2 = h
  · have : e.1 ∈ (s.sessions.filter (fun e => decide (e.2 = h))).map (fun e => e.1) := by
      simp only [List.mem_map, List.mem_filter, decide_eq_true_eq]
      exact ⟨e, ⟨he, h1⟩, rfl⟩
    simp [h1, this]
  · have : e.1 ∉ (s.sessions.filter (fun e => decide (e.2 = h))).map (fun e => e.1) := by
      simp only [List.mem_map, List.mem_filter, decide_eq_true_eq, not_exists, not_and,
        and_imp]
      intro e1 he1 h2 hkey
      have hm : (e.1, e1.2) ∈ s.sessions := by
        rw [← hkey]
        exact he1
      exact h1 ((uniqueKeys_value hus hm he).symm ▸ h2)
    simp [h1, this]

/-- C13: in a consistent store with `MaxSessions = n > 0`, when the record `h` that the registry
returns for `u` has exactly `n` sessions bound to it, `Login` with the credentials of `u`
returns `ErrAlreadyAuthenticated` and leaves the state as it was; `LogOutFully()` on `h`
returns, the session table it leaves holds exactly the sessions that were bound to another
record, the registry is unchanged, and `Login` with the same credentials and an identifier
that is not bound then returns `h` with no error. -/
theorem Login_session_limit (P : Primitives) (s : store) (n : Int) (hn : 0 < n)
    (u p uuid : String) (sids : List String) (h : Ptr) (hc : s.Consistent)
    (huk : uniqueKeys s.users) (hus : uniqueKeys s.sessions)
    (hmax : s.options.UserSettings.MaxSessions = n)
    (hu : s.options.usernameRegex u = true) (hp : s.options.passRegex p = true)
    (hget : s.get u = .ok h) (hst : (s.heap h).store = true)
    (hcmp : P.CompareHashAndPassword (s.heap h).password p = none)
    (hcount : ((s.sessions.filter (fun e => decide (e.2 = h))).length : Int) = n) :
    s.Login P uuid u p sids = some (s, .error .ErrAlreadyAuthenticated)
      ∧ ∃ s1, User.LogOutFully s h = some s1
          ∧ s1.sessions = s.sessions.filter (fun e => decide (e.2 ≠ h))
          ∧ s1.users = s.users
          ∧ (mapLookup s1.sessions (loginSessionID uuid sids) = none →
              s1.Login P uuid u p sids
                = some (s1.loggedIn h (loginSessionID uuid sids), .ok h)) := by
  obtain ⟨hreg, hname⟩ := get_registered s hc u h hget
  rw [← hname] at hreg
  have hg := getSessions_of_record s hc huk h hreg hst
  constructor
  · have hlim : s.options.UserSettings.MaxSessions
        = ((List.map (fun e : String × Ptr => e.1)
            (s.sessions.filter (fun e => decide (e.2 = h)))).length : Int)
        ∧ s.options.UserSettings.MaxSessions > 0 := by
      rw [List.length_map, hcount, hmax]
      exact ⟨rfl, hn⟩
    simp only [store.Login, hu, hp, store.UserFromUsername, hget, hcmp, hg, Bool.not_true,
      Bool.or_self, Bool.false_eq_true, if_false]
    rw [if_pos hlim]
  · refine ⟨_, LogOutFully_sessions s hc huk hus h hreg hst, rfl, rfl, ?_⟩
    intro hfree
    refine Login_ok_of P { s with sessions := s.sessions.filter (fun e => decide (e.2 ≠ h)) }
      uuid u p sids h hu hp hget hcmp hst ?_ hfree
    intro l hl
    have hnil : l = [] := by
      simp only [User.getSessions, hst, if_true, Option.some.injEq] at hl
      rw [← hl, List.map_eq_nil_iff, List.filter_eq_nil_iff]
      intro e he
      simp only [List.mem_filter, decide_eq_true_eq, decide_not, Bool.not_eq_true',
        decide_eq_false_iff_not] at he
      have := (same_username_same_record s hc huk h hreg e he.1).not.mpr he.2
      simpa using this
    subst hnil
    rintro ⟨h1, h2⟩
    rw [h1] at h2
    simp at h2

theorem oneSessionStore_consistent : oneSessionStore.Consistent :=
  ⟨by decide, by decide, by decide, by decide⟩

/-- C13, on the store with `MaxSessions = 1` in which `bob` holds the session `s1`. -/
theorem Login_session_limit_witness :
    oneSessionStore.Login markPrimitives "g2" "bob" "pw" []
        = some (oneSessionStore, .error .ErrAlreadyAuthenticated)
      ∧ ∃ s1, User.LogOutFully oneSessionStore 0 = some s1
          ∧ s1.sessions = oneSessionStore.sessions.filter (fun e => decide (e.2 ≠ 0))
          ∧ s1.users = oneSessionStore.users
          ∧ (mapLookup s1.sessions (loginSessionID "g2" []) = none →
              s1.Login markPrimitives "g2" "bob" "pw" []
                = some (s1.loggedIn 0 (loginSessionID "g2" []), .ok 0)) :=
  Login_session_limit markPrimitives oneSessionStore 1 (by decide) "bob" "pw" "g2" [] 0
    oneSessionStore_consistent (by unfold uniqueKeys; decide) (by unfold uniqueKeys; decide)
    rfl (by decide) (by decide) rfl
    (by decide) (by decide) (by decide)

/-! ## C15: `Delete` -/

theorem Delete_eq (s : store) (h : Ptr) (hst : (s.heap h).store = true) :
    User.Delete s h = some (s.deleted h) := by
  simp only [User.Delete, hst, if_true, store.remove, User.getSessions, RemoveSessions_eq,
    store.setUser, store.deleted]

theorem deleted_get (s : store) (hc : s.Consistent) (u : String) (h : Ptr)
    (hget : s.get u = .ok h) : (s.deleted h).get u = .error .ErrNotFound := by
  obtain ⟨hreg, hname⟩ := get_registered s hc u h hget
  have hnone : List.find? (fun e : String × Ptr => decide (((s.deleted h).heap e.2).username = u))
      (s.deleted h).users = none := by
    rw [List.find?_eq_none]
    intro e he
    simp only [store.deleted, hname, mem_mapDelete] at he
    have hk := hc.key_username e he.1
    have hne : e.2 ≠ h := by
      intro heq
      rw [heq, hname] at hk
      exact he.2 hk.symm
    simp only [store.deleted, Function.update_noteq hne, hk, decide_eq_true_eq]
    exact he.2
  simp only [store.get, hnone]

theorem deleted_Login (P : Primitives) (s : store) (hc : s.Consistent) (u p uuid : String)
    (sids : List String) (h : Ptr) (hu : s.options.usernameRegex u = true)
    (hp : s.options.passRegex p = true) (hget : s.get u = .ok h) :
    (s.deleted h).Login P uuid u p sids = some (s.deleted h, .error .ErrNotFound) := by
  have hu1 : (s.deleted h).options.usernameRegex u = true := hu
  have hp1 : (s.deleted h).options.passRegex p = true := hp
  simp only [store.Login, hu1, hp1, store.UserFromUsername, deleted_get s hc u h hget]
  rfl

theorem deleted_sessions (s : store) (hc : s.Consistent) (huk : uniqueKeys s.users)
    (hus : uniqueKeys s.sessions) (h : Ptr) (hreg : ((s.heap h).username, h) ∈ s.users) :
    (s.deleted h).sessions = s.sessions.filter (fun e => decide (e.2 ≠ h)) := by
  simp only [store.deleted]
  apply List.filter_congr
  intro e he
  by_cases h1 : e.2 = h
  · have : e.1 ∈ (s.sessions.filter (fun e =>
        decide ((s.heap e.2).username = (s.heap h).username))).map (fun e => e.1) := by
      simp only [List.mem_map, List.mem_filter, decide_eq_true_eq]
      exact ⟨e, ⟨he, by rw [h1]⟩, rfl⟩
    simp [h1, this]
  · have : e.1 ∉ (s.sessions.filter (fun e =>
        decide ((s.heap e.2).username = (s.heap h).username))).map (fun e => e.1) := by
      simp only [List.mem_map, List.mem_filter, decide_eq_true_eq, not_exists, not_and,
        and_imp]
      intro e1 he1 h2 hkey
      have h3 := (same_username_same_record s hc huk h hreg e1 he1).1 h2
      have hm : (e.1, e1.2) ∈ s.sessions := by
        rw [← hkey]
        exact he1
      exact h1 ((uniqueKeys_value hus hm he).symm ▸ h3)
    simp [h1, this]

/-- C15: in a consistent store, for the record `h` that the registry returns for `u`, whose
store is set, and credentials `u`, `p` that pass validation: `Delete()` on `h` returns; in the
state it leaves no registry entry has the key `u` or a record named `u`, no session is bound
to `h`, `UserFromID` of every identifier that was bound to `h` returns `ErrNotFound`, every
registry entry with another key is still there with its record unchanged, the session table
holds exactly the sessions that were bound to another record, and `Login(u, p)` returns
`ErrNotFound`. -/
theorem Delete_removes_user (P : Primitives) (s : store) (u p uuid : String)
    (sids : List String) (h : Ptr) (hc : s.Consistent) (huk : uniqueKeys s.users)
    (hus : uniqueKeys s.sessions) (hu : s.options.usernameRegex u = true)
    (hp : s.options.passRegex p = true) (hget : s.get u = .ok h)
    (hst : (s.heap h).store = true) :
    ∃ s1, User.Delete s h = some s1
      ∧ mapLookup s1.users u = none
      ∧ (∀ e ∈ s1.users, (s1.heap e.2).username ≠ u)
      ∧ (∀ e ∈ s1.sessions, e.2 ≠ h)
      ∧ (∀ e ∈ s.sessions, e.2 = h → s1.UserFromID e.1 = .error .ErrNotFound)
      ∧ (∀ e ∈ s.users, e.1 ≠ u → e ∈ s1.users ∧ s1.heap e.2 = s.heap e.2)
      ∧ s1.sessions = s.sessions.filter (fun e => decide (e.2 ≠ h))
      ∧ (∀ q, q ≠ h → s1.heap q = s.heap q)
      ∧ s1.Login P uuid u p sids = some (s1, .error .ErrNotFound) := by
  obtain ⟨hreg, hname⟩ := get_registered s hc u h hget
  have hreg1 : ((s.heap h).username, h) ∈ s.users := by rw [hname]; exact hreg
  have hsess := deleted_sessions s hc huk hus h hreg1
  have hnoth : ∀ e ∈ s.users, e.1 ≠ u → e.2 ≠ h := by
    intro e he hne heq
    have hk := hc.key_username e he
    rw [heq, hname] at hk
    exact hne hk.symm
  refine ⟨s.deleted h, Delete_eq s h hst, ?_, ?_, ?_, ?_, ?_, hsess, ?_,
    deleted_Login P s hc u p uuid sids h hu hp hget⟩
  · rw [mapLookup_eq_none_iff]
    intro e he
    simp only [store.deleted, hname, mem_mapDelete] at he
    exact he.2
  · intro e he
    simp only [store.deleted, hname, mem_mapDelete] at he
    have hk := hc.key_username e he.1
    simp only [store.deleted, Function.update_noteq (hnoth e he.1 he.2), hk]
    exact he.2
  · intro e he
    rw [hsess] at he
    simp only [List.mem_filter, decide_eq_true_eq, decide_not, Bool.not_eq_true',
      decide_eq_false_iff_not] at he
    exact he.2
  · intro e he heq
    have hnone : List.find? (fun x : String × Ptr => decide (x.1 = e.1)) (s.deleted h).sessions
        = none := by
      rw [List.find?_eq_none, hsess]
      intro x hx
      simp only [List.mem_filter, decide_eq_true_eq, decide_not, Bool.not_eq_true',
        decide_eq_false_iff_not] at hx
      simp only [decide_eq_true_eq]
      intro hkey
      have hm : (e.1, x.2) ∈ s.sessions := by
        rw [← hkey]
        exact hx.1
      exact hx.2 ((uniqueKeys_value hus hm he).trans heq)
    simp only [store.UserFromID, hnone]
  · intro e he hne
    refine ⟨?_, ?_⟩
    · simp only [store.deleted, hname, mem_mapDelete]
      exact ⟨he, hne⟩
    · simp only [store.deleted, Function.update_noteq (hnoth e he hne)]
  · intro q hq
    simp only [store.deleted, Function.update_noteq hq]

/-- C15, at `Delete()` on the handle of `bob` in the store where `bob` holds one session. -/
theorem Delete_removes_user_witness :
    ∃ s1, User.Delete oneSessionStore 0 = some s1
      ∧ mapLookup s1.users "bob" = none
      ∧ s1.Login markPrimitives "g2" "bob" "pw" [] = some (s1, .error .ErrNotFound) :=
  have ⟨s1, h1, h2, _, _, _, _, _, _, h3⟩ :=
    Delete_removes_user markPrimitives oneSessionStore "bob" "pw" "g2" [] 0
      oneSessionStore_consistent (by unfold uniqueKeys; decide) (by unfold uniqueKeys; decide)
      (by decide) (by decide) rfl (by decide)
  ⟨s1, h1, h2, h3⟩

/-! ## C17: `Delete` on a handle without a valid session -/

/-- C17 (as stated, refuted): the handle of `bob` has never logged in, so its session check is
false; `Delete()` on it removes `bob` from the registry, scrubs the record, and `Login` with the
credentials of `bob`, which succeeded before, returns `ErrNotFound`. -/
theorem Delete_never_logged_in_removes :
    User.validateSession twoUsers 0 = some false
      ∧ mapLookup twoUsers.users "bob" = some 0
      ∧ ((twoUsers.Login markPrimitives "g1" "bob" "pw" []).map fun r => r.2) = some (.ok 0)
      ∧ ((User.Delete twoUsers 0).map fun s1 =>
            (s1.users, (s1.heap 0).username, (s1.heap 0).password))
          = some ([("eve", 1)], "", "")
      ∧ ((User.Delete twoUsers 0).bind fun s1 =>
            (s1.Login markPrimitives "g1" "bob" "pw" []).map fun r => r.2)
          = some (.error .ErrNotFound) := by
  refine ⟨by decide, by decide, rfl, by decide, rfl⟩

/-- C17 (amended): `Delete` does not check the session.  In a consistent store, on the record
`h` that the registry returns for `u`, when the session check on `h` is false and `u`, `p` pass
validation, `Delete()` returns, the registry it leaves has no entry with the key `u`, the
record is scrubbed, and `Login(u, p)` returns `ErrNotFound`. -/
theorem Delete_without_session (P : Primitives) (s : store) (u p uuid : String)
    (sids : List String) (h : Ptr) (hc : s.Consistent)
    (hu : s.options.usernameRegex u = true) (hp : s.options.passRegex p = true)
    (hget : s.get u = .ok h) (hinv : User.validateSession s h = some false) :
    ∃ s1, User.Delete s h = some s1
      ∧ s1.users = mapDelete s.users u
      ∧ mapLookup s1.users u = none
      ∧ s1.heap h = { s.heap h with password := "", username := "", session := "",
                                    access := -1, Variables := none }
      ∧ s1.Login P uuid u p sids = some (s1, .error .ErrNotFound) := by
  have hst : (s.heap h).store = true := by
    by_contra hne
    simp [User.validateSession, User.getSessions, hne] at hinv
  have hname : (s.heap h).username = u := (get_ok_inv s u h hget).2
  refine ⟨s.deleted h, Delete_eq s h hst, by simp only [store.deleted, hname], ?_,
    by simp only [store.deleted, Function.update_same],
    deleted_Login P s hc u p uuid sids h hu hp hget⟩
  rw [mapLookup_eq_none_iff]
  intro e he
  simp only [store.deleted, hname, mem_mapDelete] at he
  exact he.2

theorem twoUsers_consistent : twoUsers.Consistent :=
  ⟨by decide, by decide, by decide, by decide⟩

/-- C17 (amended), at `Delete()` on the handle of `bob` that never logged in. -/
theorem Delete_without_session_witness :
    ∃ s1, User.Delete twoUsers 0 = some s1
      ∧ s1.users = mapDelete twoUsers.users "bob"
      ∧ mapLookup s1.users "bob" = none
      ∧ s1.heap 0 = { twoUsers.heap 0 with password := "", username := "", session := "",
                                           access := -1, Variables := none }
      ∧ s1.Login markPrimitives "g1" "bob" "pw" [] = some (s1, .error .ErrNotFound) :=
  Delete_without_session markPrimitives twoUsers "bob" "pw" "g1" [] 0 twoUsers_consistent
    (by decide) (by decide) rfl (by decide)

/-! ## C16: a deleted handle -/

/-- C16 (the code at the failing input): after `Delete()` the handle of `bob` has the username
`""`, the access level -1 and a nil variable map, and the registry no longer holds `bob`;
`eve` then holds the valid session whose identifier is the empty string; `LogOut()` on the
deleted handle removes that session from the session table, and the session check on `eve`
turns false. -/
theorem deleted_handle_LogOut_revokes :
    (deletedLogOutRun.map fun r =>
        ((r.1.heap 0).username, (r.1.heap 0).access, (r.1.heap 0).Variables, r.1.users,
          r.1.sessions, User.validateSession r.1 1, r.2.users, r.2.sessions,
          User.validateSession r.2 1))
      = some ("", -1, none, [("eve", 1)], [("", 1)], some true, [("eve", 1)], [],
          some false) := by
  rfl

/-! ## C14: the session limit is an invariant -/

theorem sessionCount_le (s s1 : store) (name : String)
    (hsub : s1.sessions.Sublist s.sessions)
    (hname : ∀ e ∈ s1.sessions, (s1.heap e.2).username = (s.heap e.2).username) :
    s1.sessionCount name ≤ s.sessionCount name := by
  have hc : s1.sessions.filter (fun e => decide ((s1.heap e.2).username = name))
      = s1.sessions.filter (fun e => decide ((s.heap e.2).username = name)) := by
    apply List.filter_congr
    intro e he
    rw [hname e he]
  simp only [store.sessionCount, hc]
  exact (hsub.filter _).length_le

theorem SessionBound_of_sublist {n : Int} {s s1 : store} (hb : s.SessionBound n)
    (hopt : s1.options = s.options) (hnext : s.next ≤ s1.next)
    (husers : ∀ e ∈ s1.users, e.2 < s1.next)
    (hsub : s1.sessions.Sublist s.sessions)
    (hname : ∀ e ∈ s1.sessions, (s1.heap e.2).username = (s.heap e.2).username) :
    s1.SessionBound n := by
  refine ⟨by rw [hopt]; exact hb.limit, husers, ?_, ?_⟩
  · intro e he
    exact lt_of_lt_of_le (hb.sessions_allocated e (hsub.subset he)) hnext
  · intro name
    have := sessionCount_le s s1 name hsub hname
    have hle := hb.bounded name
    omega

theorem SessionBound_setUser {n : Int} {s : store} (hb : s.SessionBound n) (h : Ptr)
    (f : User → User) (hf : (f (s.heap h)).username = (s.heap h).username) :
    (s.setUser h f).SessionBound n := by
  refine SessionBound_of_sublist hb rfl (le_refl _) hb.users_allocated (List.Sublist.refl _) ?_
  intro e _
  by_cases he : e.2 = h
  · simp [store.setUser, he, hf]
  · simp [store.setUser, Function.update_noteq he]

theorem SessionBound_filter {n : Int} {s : store} (hb : s.SessionBound n)
    (f : String × Ptr → Bool) : ({ s with sessions := s.sessions.filter f }).SessionBound n :=
  SessionBound_of_sublist hb rfl (le_refl _) hb.users_allocated (List.filter_sublist _)
    (fun _ _ => rfl)

theorem Add_effect (P : Primitives) (s : store) (u p : String) (a : Int) :
    (s.Add P u p a).1.next = s.next + 1
      ∧ (s.Add P u p a).1.sessions = s.sessions
      ∧ (s.Add P u p a).1.options = s.options
      ∧ (∀ r, r < s.next → (s.Add P u p a).1.heap r = s.heap r)
      ∧ ((s.Add P u p a).1.heap s.next).username = u
      ∧ (∀ e ∈ (s.Add P u p a).1.users, e ∈ s.users ∨ e = (u, s.next)) := by
  have hupd : ∀ (f : Ptr → User) (x : User) (r : Ptr), r < s.next →
      Function.update f s.next x r = f r := by
    intro f x r hr
    exact Function.update_noteq (Nat.ne_of_lt hr) _ _
  simp only [store.Add, store.alloc, Function.update_same]
  split
  · exact ⟨rfl, rfl, rfl, fun r hr => hupd _ _ r hr, by simp, fun e he => Or.inl he⟩
  · simp only [store.add, store.setUser, Function.update_same]
    split
    · refine ⟨rfl, rfl, rfl, fun r hr => ?_, by simp, fun e he => Or.inl he⟩
      simp only [hupd _ _ r hr]
    · split
      · refine ⟨rfl, rfl, rfl, fun r hr => ?_, by simp, fun e he => Or.inl he⟩
        simp only [hupd _ _ r hr]
      · refine ⟨rfl, rfl, rfl, fun r hr => ?_, by simp, fun e he => ?_⟩
        · simp only [hupd _ _ r hr]
        · simp only [mapInsert, List.mem_append, mem_mapDelete, List.mem_singleton] at he
          rcases he with he | he
          · exact Or.inl he.1
          · exact Or.inr he

theorem SessionBound_Add {n : Int} {s : store} (hb : s.SessionBound n) (P : Primitives)
    (u p : String) (a : Int) : (s.Add P u p a).1.SessionBound n := by
  obtain ⟨h1, h2, h3, h4, _, h6⟩ := Add_effect P s u p a
  refine SessionBound_of_sublist hb h3 (by rw [h1]; exact Nat.le_succ _) ?_
    (by rw [h2]) ?_
  · intro e he
    rw [h1]
    rcases h6 e he with h | h
    · exact Nat.lt_succ_of_lt (hb.users_allocated e h)
    · rw [h]
      exact Nat.lt_succ_self _
  · intro e he
    rw [h2] at he
    rw [h4 _ (hb.sessions_allocated e he)]

theorem Login_cases (P : Primitives) (s s1 : store) (uuid u p : String) (sids : List String)
    (r : Except Error Ptr) (h : s.Login P uuid u p sids = some (s1, r)) :
    s1 = s
      ∨ (∃ q, s1 = s.setUser q (fun x => { x with session := loginSessionID uuid sids }))
      ∨ (∃ q, (∃ k, (k, q) ∈ s.users)
          ∧ mapLookup s.sessions (loginSessionID uuid sids) = none
          ∧ ¬ (s.options.UserSettings.MaxSessions = (s.sessionCount (s.heap q).username : Int)
                ∧ s.options.UserSettings.MaxSessions > 0)
          ∧ s1 = s.loggedIn q (loginSessionID uuid sids)) := by
  unfold store.Login at h
  split at h
  · simp only [Option.some.injEq, Prod.mk.injEq] at h
    exact Or.inl h.1.symm
  · simp only [store.UserFromUsername] at h
    split at h
    · simp only [Option.some.injEq, Prod.mk.injEq] at h
      exact Or.inl h.1.symm
    · rename_i user hget
      split at h
      · simp only [Option.some.injEq, Prod.mk.injEq] at h
        exact Or.inl h.1.symm
      · split at h
        · simp at h
        · rename_i sessions hsess
          have hlen : (sessions.length : Int)
              = (s.sessionCount (s.heap user).username : Int) := by
            unfold User.getSessions at hsess
            split at hsess
            · simp only [Option.some.injEq] at hsess
              rw [← hsess, List.length_map]
              rfl
            · simp at hsess
          split at h
          · simp only [Option.some.injEq, Prod.mk.injEq] at h
            exact Or.inl h.1.symm
          · rename_i hlim
            rw [hlen] at hlim
            simp only [store.newSession, store.setUser, Function.update_same] at h
            split at h
            · rename_i s3 e heq
              split at heq
              · simp only [Prod.mk.injEq] at heq
                simp only [Option.some.injEq, Prod.mk.injEq] at h
                exact Or.inr (Or.inl ⟨user, by rw [← h.1, ← heq.1]; rfl⟩)
              · simp at heq
            · rename_i s3 heq
              split at heq
              · simp at heq
              · rename_i hl
                simp only [Prod.mk.injEq, and_true] at heq
                simp only [Option.some.injEq, Prod.mk.injEq] at h
                refine Or.inr (Or.inr ⟨user, (get_ok_inv s u user hget).1, by simpa using hl,
                  hlim, ?_⟩)
                rw [← h.1, ← heq]
                rfl

theorem SessionBound_loggedIn {n : Int} (hn : 0 < n) {s : store} (hb : s.SessionBound n)
    (q : Ptr) (sid : String) (hq : ∃ k, (k, q) ∈ s.users)
    (hfree : mapLookup s.sessions sid = none)
    (hlim : ¬ (s.options.UserSettings.MaxSessions = (s.sessionCount (s.heap q).username : Int)
                ∧ s.options.UserSettings.MaxSessions > 0)) :
    (s.loggedIn q sid).SessionBound n := by
  have hsess : (s.loggedIn q sid).sessions = s.sessions ++ [(sid, q)] := by
    simp only [store.loggedIn, mapInsert,
      mapDelete_of_absent _ _ ((mapLookup_eq_none_iff _ _).1 hfree)]
  have hname : ∀ x, ((s.loggedIn q sid).heap x).username = (s.heap x).username := by
    intro x
    by_cases hx : x = q
    · simp [store.loggedIn, hx]
    · simp [store.loggedIn, Function.update_noteq hx]
  obtain ⟨k, hk⟩ := hq
  refine ⟨hb.limit, hb.users_allocated, ?_, ?_⟩
  · intro e he
    rw [hsess, List.mem_append, List.mem_singleton] at he
    rcases he with he | he
    · exact hb.sessions_allocated e he
    · rw [he]
      exact hb.users_allocated (k, q) hk
  · intro name
    have hcount : (s.loggedIn q sid).sessionCount name
        = s.sessionCount name + (if (s.heap q).username = name then 1 else 0) := by
      simp only [store.sessionCount, hsess, hname, List.filter_append, List.length_append]
      congr 1
      by_cases hqn : (s.heap q).username = name <;> simp [List.filter, hqn]
    rw [hcount]
    have hle := hb.bounded name
    by_cases hqn : (s.heap q).username = name
    · rw [hb.limit, hqn] at hlim
      simp only [hqn, if_true]
      have : ¬ (n = (s.sessionCount name : Int)) := fun h => hlim ⟨h, hn⟩
      push_cast
      omega
    · simp only [hqn, if_false]
      simpa using hle

theorem SessionBound_Login {n : Int} (hn : 0 < n) {s s1 : store} (hb : s.SessionBound n)
    (P : Primitives) (uuid u p : String) (sids : List String) (r : Except Error Ptr)
    (h : s.Login P uuid u p sids = some (s1, r)) : s1.SessionBound n := by
  rcases Login_cases P s s1 uuid u p sids r h with rfl | ⟨q, rfl⟩ | ⟨q, hq, hfree, hlim, rfl⟩
  · exact hb
  · exact SessionBound_setUser hb q _ rfl
  · exact SessionBound_loggedIn hn hb q _ hq hfree hlim

theorem SessionBound_Delete {n : Int} {s s1 : store} (hb : s.SessionBound n) (h : Ptr)
    (hd : User.Delete s h = some s1) : s1.SessionBound n := by
  have hst : (s.heap h).store = true := by
    by_contra hne
    simp [User.Delete, hne] at hd
  rw [Delete_eq s h hst, Option.some.injEq] at hd
  subst hd
  refine SessionBound_of_sublist hb rfl (le_refl _) ?_ (List.filter_sublist _) ?_
  · intro e he
    simp only [store.deleted, mem_mapDelete] at he
    exact hb.users_allocated e he.1
  · intro e he
    simp only [store.deleted, List.mem_filter, List.mem_map, decide_eq_true_eq, decide_not,
      Bool.not_eq_true', decide_eq_false_iff_not, not_exists, not_and] at he
    have hne : e.2 ≠ h := by
      intro heq
      exact he.2 e ⟨he.1, by rw [heq]⟩ rfl
    simp only [store.deleted, Function.update_noteq hne]

theorem ChangePassword_cases (P : Primitives) (s s1 : store) (h : Ptr) (p : String)
    (e : Option Error) (hc : User.ChangePassword P s h p = some (s1, e)) :
    s1 = s ∨ ∃ d, s1 = s.setUser h (fun u => { u with password := d }) := by
  unfold User.ChangePassword at hc
  split at hc
  · simp at hc
  · split at hc
    · simp only [Option.some.injEq, Prod.mk.injEq] at hc
      exact Or.inl hc.1.symm
    · split at hc
      · simp only [Option.some.injEq, Prod.mk.injEq] at hc
        exact Or.inl hc.1.symm
      · split at hc
        · simp only [Option.some.injEq, Prod.mk.injEq] at hc
          exact Or.inl hc.1.symm
        · split at hc
          · simp only [Option.some.injEq, Prod.mk.injEq] at hc
            exact Or.inl hc.1.symm
          · rename_i d _
            simp only [Option.some.injEq, Prod.mk.injEq] at hc
            exact Or.inr ⟨d, hc.1.symm⟩

theorem Session_cases (s s1 : store) (h : Ptr) (v : String)
    (hs : User.Session s h = some (s1, v)) :
    s1 = s ∨ s1 = s.setUser h (fun u => { u with session := "" }) := by
  unfold User.Session at hs
  split at hs
  · simp at hs
  · rename_i valid _
    simp only [Option.some.injEq, Prod.mk.injEq] at hs
    cases valid with
    | true => exact Or.inl (by simpa using hs.1.symm)
    | false => exact Or.inr (by simpa using hs.1.symm)

theorem Init_SessionBound (n : Int) (hn : 0 < n) (b : Bool) (ur pr : Option (String → Bool)) :
    (Init (some { MaxSessions := n, AllowPasswordChange := b }) ur pr).SessionBound n := by
  refine ⟨rfl, by simp [Init], by simp [Init], ?_⟩
  intro name
  simp only [store.sessionCount, Init, List.filter_nil, List.length_nil]
  exact le_of_lt hn

theorem Reachable_SessionBound {n : Int} (hn : 0 < n) {s0 s : store}
    (h0 : s0.SessionBound n) (hr : Reachable s0 s) : s.SessionBound n := by
  induction hr with
  | init => exact h0
  | Add P u p a _ ih => exact SessionBound_Add ih P u p a
  | Login P uuid u p sids r _ h ih => exact SessionBound_Login hn ih P uuid u p sids r h
  | LogOut h _ hl ih =>
    unfold User.LogOut at hl
    split at hl
    · simp only [Option.some.injEq] at hl
      rw [← hl, RemoveSessions_eq]
      exact SessionBound_filter ih _
    · simp at hl
  | LogOutFully h _ hl ih =>
    unfold User.LogOutFully at hl
    split at hl
    · simp at hl
    · simp only [Option.some.injEq] at hl
      rw [← hl, RemoveSessions_eq]
      exact SessionBound_filter ih _
  | Delete h _ hd ih => exact SessionBound_Delete ih h hd
  | ChangePassword P h p e _ hc ih =>
    rcases ChangePassword_cases P _ _ h p e hc with rfl | ⟨d, rfl⟩
    · exact ih
    · exact SessionBound_setUser ih h _ rfl
  | ChangeAccess h a _ ih => exact SessionBound_setUser ih h _ rfl
  | RemoveSessions ids _ ih =>
    rw [RemoveSessions_eq]
    exact SessionBound_filter ih _
  | Session h v _ hs ih =>
    rcases Session_cases _ _ h v hs with rfl | rfl
    · exact ih
    · exact SessionBound_setUser ih h _ rfl

/-- C14: for every `n > 0`, in every state that `Add`, `Login` (with or without a caller's
identifier, successful or not), `LogOut`, `LogOutFully`, `Delete`, `ChangePassword`,
`ChangeAccess`, `RemoveSessions` and `Session` reach from `Init` with `MaxSessions = n`, the
number of session table entries bound to any one record is at most `n`. -/
theorem sessions_per_user_bounded (n : Int) (hn : 0 < n) (b : Bool)
    (ur pr : Option (String → Bool)) (s : store)
    (hr : Reachable (Init (some { MaxSessions := n, AllowPasswordChange := b }) ur pr) s)
    (q : Ptr) :
    ((s.sessions.filter (fun e => decide (e.2 = q))).length : Int) ≤ n := by
  have hb := Reachable_SessionBound hn (Init_SessionBound n hn b ur pr) hr
  have hle := hb.bounded (s.heap q).username
  have hsub : (s.sessions.filter (fun e => decide (e.2 = q))).length
      ≤ s.sessionCount (s.heap q).username := by
    apply List.Sublist.length_le
    apply List.monotone_filter_right
    intro e he
    simp only [decide_eq_true_eq] at he
    simp [he]
  omega

/-- C14, on the store with `MaxSessions = 1` in which `bob` holds one session. -/
theorem sessions_per_user_bounded_witness :
    ((oneSessionStore.sessions.filter (fun e => decide (e.2 = 0))).length : Int) ≤ 1 :=
  sessions_per_user_bounded 1 (by decide) true none none oneSessionStore
    (Reachable.Login markPrimitives "g1" "bob" "pw" ["s1"] (.ok 0)
      (Reachable.Add markPrimitives "bob" "pw" USER Reachable.init) rfl) 0

/-! ## C21: the session check is a lookup by identity -/

/-- C21: on a handle whose store is set, `validateSession` returns, and its result is true if
and only if the session table has the key recorded in the record and binds it to that very
record; the scan of `getSessions` followed by `UserFromID` computes the direct lookup
`sessionBoundToSelf`. -/
theorem validateSession_eq_lookup (s : store) (h : Ptr) (hst : (s.heap h).store = true) :
    User.validateSession s h = some (User.sessionBoundToSelf s h)
      ∧ (User.validateSession s h = some true ↔
          mapLookup s.sessions (s.heap h).session = some h) := by
  have key : User.validateSession s h = some (User.sessionBoundToSelf s h) := by
    simp only [User.validateSession, User.getSessions, hst, if_true, User.sessionBoundToSelf,
      mapLookup, store.UserFromID]
    split
    · rename_i session hfind
      have hsess : session = (s.heap h).session := by
        simpa using List.find?_some hfind
      subst hsess
      split
      · rename_i herr
        split at herr
        · simp at herr
        · rename_i hnone
          simp [hnone]
      · rename_i q hq
        split at hq
        · rename_i e he
          simp only [Except.ok.injEq] at hq
          subst hq
          simp only [he, Option.map_some', Option.some.injEq, Option.some.injEq]
          congr 1
          exact propext eq_comm
        · simp at hq
    · rename_i hfind
      rw [List.find?_eq_none] at hfind
      simp only [Option.some.injEq, decide_eq_false_iff_not, Option.map_eq_some', not_exists,
        not_and, Bool.false_eq, decide_eq_false_iff_not]
      intro e he heq
      have hmem := List.mem_of_find?_eq_some he
      have hk : e.1 = (s.heap h).session := by simpa using List.find?_some he
      have := hfind e.1 (by
        simp only [List.mem_map, List.mem_filter, decide_eq_true_eq]
        exact ⟨e, ⟨hmem, by rw [heq]⟩, rfl⟩)
      simp [hk] at this
  refine ⟨key, ?_⟩
  rw [key]
  simp [User.sessionBoundToSelf]

/-- C21, on the logged-in handle of `bob`. -/
theorem validateSession_eq_lookup_witness :
    User.validateSession (bobLoggedIn USER) 0 = some (User.sessionBoundToSelf (bobLoggedIn USER) 0)
      ∧ (User.validateSession (bobLoggedIn USER) 0 = some true ↔
          mapLookup (bobLoggedIn USER).sessions ((bobLoggedIn USER).heap 0).session = some 0) :=
  validateSession_eq_lookup (bobLoggedIn USER) 0 (by decide)

/-! ## C22: a `Login` that fails before the registration -/

theorem get_error (s : store) (u : String) (e : Error) (h : s.get u = .error e) :
    e = .ErrNotFound := by
  unfold store.get at h
  split at h
  · simp at h
  · simp only [Except.error.injEq] at h
    exact h.symm

theorem Login_error_unbound (P : Primitives) (s s1 : store) (uuid u p : String)
    (sids : List String) (e : Error) (hlog : s.Login P uuid u p sids = some (s1, .error e))
    (hfree : mapLookup s.sessions (loginSessionID uuid sids) = none) : s1 = s := by
  unfold store.Login at hlog
  split at hlog
  · simp only [Option.some.injEq, Prod.mk.injEq] at hlog
    exact hlog.1.symm
  · simp only [store.UserFromUsername] at hlog
    split at hlog
    · simp only [Option.some.injEq, Prod.mk.injEq] at hlog
      exact hlog.1.symm
    · split at hlog
      · simp only [Option.some.injEq, Prod.mk.injEq] at hlog
        exact hlog.1.symm
      · split at hlog
        · simp at hlog
        · split at hlog
          · simp only [Option.some.injEq, Prod.mk.injEq] at hlog
            exact hlog.1.symm
          · simp only [store.newSession, store.setUser, Function.update_same] at hlog
            rw [hfree] at hlog
            simp at hlog

/-- C22: `Login` returns its error and the state it was called on, so the registry, the session
table and every record with its session identifier are what they were, in each of the four
failures that precede the registration: the credentials fail validation
(`ErrInvalidUsernamePassword`); no registry record has the username (`ErrNotFound`);
verification rejects the password (its error); the session limit is reached
(`ErrAlreadyAuthenticated`).  Conversely, whenever `Login` returns an error and the identifier
it would register was not bound, the state is the one it was called on. -/
theorem Login_failure_atomic (P : Primitives) (s : store) (uuid u p : String)
    (sids : List String) :
    ((s.options.usernameRegex u = false ∨ s.options.passRegex p = false) →
        s.Login P uuid u p sids = some (s, .error .ErrInvalidUsernamePassword))
      ∧ (s.options.usernameRegex u = true → s.options.passRegex p = true →
          ∀ e, s.get u = .error e →
            e = .ErrNotFound ∧ s.Login P uuid u p sids = some (s, .error .ErrNotFound))
      ∧ (s.options.usernameRegex u = true → s.options.passRegex p = true →
          ∀ h e, s.get u = .ok h → P.CompareHashAndPassword (s.heap h).password p = some e →
            s.Login P uuid u p sids = some (s, .error e))
      ∧ (s.options.usernameRegex u = true → s.options.passRegex p = true →
          ∀ h l, s.get u = .ok h → P.CompareHashAndPassword (s.heap h).password p = none →
            User.getSessions s h = some l →
            s.options.UserSettings.MaxSessions = (l.length : Int) →
            s.options.UserSettings.MaxSessions > 0 →
            s.Login P uuid u p sids = some (s, .error .ErrAlreadyAuthenticated))
      ∧ (∀ s1 e, s.Login P uuid u p sids = some (s1, .error e) →
          mapLookup s.sessions (loginSessionID uuid sids) = none → s1 = s) := by
  refine ⟨?_, ?_, ?_, ?_, ?_⟩
  · intro hbad
    have hc : (!s.options.usernameRegex u || !s.options.passRegex p) = true := by
      rcases hbad with hb | hb <;> simp [hb]
    simp only [store.Login, hc, if_true]
  · intro hu hp e he
    have hnf := get_error s u e he
    subst hnf
    refine ⟨rfl, ?_⟩
    simp only [store.Login, hu, hp, store.UserFromUsername, he]
    rfl
  · intro hu hp h e hget hcmp
    simp only [store.Login, hu, hp, store.UserFromUsername, hget, hcmp]
    rfl
  · intro hu hp h l hget hcmp hl hmax hpos
    simp only [store.Login, hu, hp, store.UserFromUsername, hget, hcmp, hl, Bool.not_true,
      Bool.or_self, Bool.false_eq_true, if_false]
    rw [if_pos ⟨hmax, hpos⟩]
  · intro s1 e hlog hfree
    exact Login_error_unbound P s s1 uuid u p sids e hlog hfree

/-- C22, at `Login("bob", "wrong")` on the store where `bob` holds one session. -/
theorem Login_failure_atomic_witness :
    oneSessionStore.Login markPrimitives "g2" "bob" "wrong" []
      = some (oneSessionStore, .error (.bcrypt 0)) :=
  (Login_failure_atomic markPrimitives oneSessionStore "g2" "bob" "wrong" []).2.2.1
    (by decide) (by decide) 0 (.bcrypt 0) rfl (by decide)

/-! ## C23: consistency is an invariant -/

theorem Consistent_of_frame {s s1 : store} (hc : s.Consistent) (hnext : s.next ≤ s1.next)
    (husers : ∀ e ∈ s1.users, e ∈ s.users)
    (hsess : ∀ e ∈ s1.sessions, e ∈ s.sessions ∧ ∃ r ∈ s1.users, r.2 = e.2)
    (hname : ∀ e ∈ s1.users, (s1.heap e.2).username = (s.heap e.2).username) :
    s1.Consistent := by
  refine ⟨?_, ?_, ?_, fun e he => (hsess e he).2⟩
  · intro e he
    exact lt_of_lt_of_le (hc.users_allocated e (husers e he)) hnext
  · intro e he
    exact lt_of_lt_of_le (hc.sessions_allocated e (hsess e he).1) hnext
  · intro e he
    rw [hname e he]
    exact hc.key_username e (husers e he)

theorem Consistent_setUser {s : store} (hc : s.Consistent) (h : Ptr) (f : User → User)
    (hf : (f (s.heap h)).username = (s.heap h).username) : (s.setUser h f).Consistent := by
  refine Consistent_of_frame hc (le_refl _) (fun _ he => he)
    (fun e he => ⟨he, hc.session_registered e he⟩) ?_
  intro e _
  by_cases he : e.2 = h
  · simp [store.setUser, he, hf]
  · simp [store.setUser, Function.update_noteq he]

theorem Consistent_filter {s : store} (hc : s.Consistent) (f : String × Ptr → Bool) :
    ({ s with sessions := s.sessions.filter f } : store).Consistent :=
  Consistent_of_frame hc (le_refl _) (fun _ he => he)
    (fun e he => ⟨List.mem_of_mem_filter he,
      hc.session_registered e (List.mem_of_mem_filter he)⟩)
    (fun _ _ => rfl)

theorem Consistent_Delete {s s1 : store} (hc : s.Consistent) (h : Ptr)
    (hd : User.Delete s h = some s1) : s1.Consistent := by
  have hst : (s.heap h).store = true := by
    by_contra hne
    simp [User.Delete, hne] at hd
  rw [Delete_eq s h hst, Option.some.injEq] at hd
  subst hd
  have hkeep : ∀ e ∈ (s.deleted h).users, e.2 ≠ h := by
    intro e he heq
    simp only [store.deleted, mem_mapDelete] at he
    have hk := hc.key_username e he.1
    rw [heq] at hk
    exact he.2 hk.symm
  refine Consistent_of_frame hc (le_refl _) ?_ ?_ ?_
  · intro e he
    simp only [store.deleted, mem_mapDelete] at he
    exact he.1
  · intro e he
    simp only [store.deleted, List.mem_filter, List.mem_map, decide_eq_true_eq, decide_not,
      Bool.not_eq_true', decide_eq_false_iff_not, not_exists, not_and] at he
    refine ⟨he.1, ?_⟩
    obtain ⟨r, hr, hre⟩ := hc.session_registered e he.1
    refine ⟨r, ?_, hre⟩
    simp only [store.deleted, mem_mapDelete]
    refine ⟨hr, fun hkey => ?_⟩
    have hk := hc.key_username r hr
    rw [hre, hkey] at hk
    exact he.2 e ⟨he.1, hk⟩ rfl
  · intro e he
    simp only [store.deleted, Function.update_noteq (hkeep e he)]

theorem Add_users (P : Primitives) (s : store) (u p : String) (a : Int) :
    (s.Add P u p a).1.users = s.users
      ∨ ((∀ e ∈ s.users, e.1 ≠ u) ∧ (s.Add P u p a).1.users = s.users ++ [(u, s.next)]) := by
  simp only [store.Add, store.alloc, Function.update_same]
  split
  · exact Or.inl rfl
  · simp only [store.add, store.setUser, Function.update_same]
    split
    · exact Or.inl rfl
    · rename_i hany
      split
      · exact Or.inl rfl
      · have hnew : ∀ e ∈ s.users, e.1 ≠ u := by
          intro e he heq
          apply hany
          rw [List.any_eq_true]
          exact ⟨e, he, by simp [heq]⟩
        exact Or.inr ⟨hnew, by simp only [mapInsert, mapDelete_of_absent _ _ hnew]⟩

theorem Consistent_Add {s : store} (hc : s.Consistent) (P : Primitives) (u p : String)
    (a : Int) : (s.Add P u p a).1.Consistent := by
  obtain ⟨h1, h2, _, h4, h5, h6⟩ := Add_effect P s u p a
  have hmono : ∀ e ∈ s.users, e ∈ (s.Add P u p a).1.users := by
    intro e he
    rcases Add_users P s u p a with h | ⟨_, h⟩
    · rw [h]; exact he
    · rw [h]; exact List.mem_append_left _ he
  refine ⟨?_, ?_, ?_, ?_⟩
  · intro e he
    rw [h1]
    rcases h6 e he with h | h
    · exact Nat.lt_succ_of_lt (hc.users_allocated e h)
    · rw [h]
      exact Nat.lt_succ_self _
  · intro e he
    rw [h2] at he
    rw [h1]
    exact Nat.lt_succ_of_lt (hc.sessions_allocated e he)
  · intro e he
    rcases h6 e he with h | h
    · rw [h4 _ (hc.users_allocated e h)]
      exact hc.key_username e h
    · rw [h]
      exact h5
  · intro e he
    rw [h2] at he
    obtain ⟨r, hr, hre⟩ := hc.session_registered e he
    exact ⟨r, hmono r hr, hre⟩

theorem Consistent_loggedIn {s : store} (hc : s.Consistent) (q : Ptr) (sid : String)
    (hq : ∃ k, (k, q) ∈ s.users) : (s.loggedIn q sid).Consistent := by
  have hname : ∀ x, ((s.loggedIn q sid).heap x).username = (s.heap x).username := by
    intro x
    by_cases hx : x = q
    · simp [store.loggedIn, hx]
    · simp [store.loggedIn, Function.update_noteq hx]
  obtain ⟨k, hk⟩ := hq
  refine ⟨hc.users_allocated, ?_, ?_, ?_⟩
  · intro e he
    simp only [store.loggedIn, mapInsert, List.mem_append, mem_mapDelete,
      List.mem_singleton] at he
    rcases he with he | he
    · exact hc.sessions_allocated e he.1
    · rw [he]
      exact hc.users_allocated (k, q) hk
  · intro e he
    rw [hname]
    exact hc.key_username e he
  · intro e he
    simp only [store.loggedIn, mapInsert, List.mem_append, mem_mapDelete,
      List.mem_singleton] at he
    rcases he with he | he
    · exact hc.session_registered e he.1
    · rw [he]
      exact ⟨(k, q), hk, rfl⟩

theorem Init_Consistent (us : Option UserSettings) (ur pr : Option (String → Bool)) :
    (Init us ur pr).Consistent :=
  ⟨by simp [Init], by simp [Init], by simp [Init], by simp [Init]⟩

theorem Reachable_Consistent {s0 s : store} (h0 : s0.Consistent) (hr : Reachable s0 s) :
    s.Consistent := by
  induction hr with
  | init => exact h0
  | Add P u p a _ ih => exact Consistent_Add ih P u p a
  | Login P uuid u p sids r _ h ih =>
    rcases Login_cases P _ _ uuid u p sids r h with rfl | ⟨q, rfl⟩ | ⟨q, hq, _, _, rfl⟩
    · exact ih
    · exact Consistent_setUser ih q _ rfl
    · exact Consistent_loggedIn ih q _ hq
  | LogOut h _ hl ih =>
    unfold User.LogOut at hl
    split at hl
    · simp only [Option.some.injEq] at hl
      rw [← hl, RemoveSessions_eq]
      exact Consistent_filter ih _
    · simp at hl
  | LogOutFully h _ hl ih =>
    unfold User.LogOutFully at hl
    split at hl
    · simp at hl
    · simp only [Option.some.injEq] at hl
      rw [← hl, RemoveSessions_eq]
      exact Consistent_filter ih _
  | Delete h _ hd ih => exact Consistent_Delete ih h hd
  | ChangePassword P h p e _ hc ih =>
    rcases ChangePassword_cases P _ _ h p e hc with rfl | ⟨d, rfl⟩
    · exact ih
    · exact Consistent_setUser ih h _ rfl
  | ChangeAccess h a _ ih => exact Consistent_setUser ih h _ rfl
  | RemoveSessions ids _ ih =>
    rw [RemoveSessions_eq]
    exact Consistent_filter ih _
  | Session h v _ hs ih =>
    rcases Session_cases _ _ h v hs with rfl | rfl
    · exact ih
    · exact Consistent_setUser ih h _ rfl

theorem find?_congr_mem {l : List (String × Ptr)} {f g : String × Ptr → Bool}
    (h : ∀ x ∈ l, f x = g x) : l.find? f = l.find? g := by
  induction l with
  | nil => rfl
  | cons x xs ih =>
    have hx := h x (List.mem_cons_self _ _)
    have ih1 := ih (fun y hy => h y (List.mem_cons_of_mem _ hy))
    simp only [List.find?, hx, ih1]

theorem get_eq_lookup (s : store) (hc : s.Consistent) (u : String) (q : Ptr) :
    s.get u = .ok q ↔ mapLookup s.users u = some q := by
  have hf : s.users.find? (fun e => decide ((s.heap e.2).username = u))
      = s.users.find? (fun e => decide (e.1 = u)) := by
    apply find?_congr_mem
    intro e he
    rw [hc.key_username e he]
  simp only [store.get, mapLookup, hf]
  cases s.users.find? (fun e => decide (e.1 = u)) with
  | none => simp
  | some e => simp

theorem uniqueKeys_of_sublist {m m1 : List (String × Ptr)} (hsub : m1.Sublist m)
    (hm : uniqueKeys m) : uniqueKeys m1 :=
  List.Nodup.sublist (hsub.map _) hm

theorem uniqueKeys_append_fresh {m : List (String × Ptr)} (hm : uniqueKeys m) (k : String)
    (v : Ptr) (hk : ∀ e ∈ m, e.1 ≠ k) : uniqueKeys (m ++ [(k, v)]) := by
  simp only [uniqueKeys, List.map_append, List.map_cons, List.map_nil]
  rw [List.nodup_append]
  refine ⟨hm, List.nodup_singleton _, ?_⟩
  intro x hx hx1
  simp only [List.mem_map] at hx
  obtain ⟨e, he, rfl⟩ := hx
  simp only [List.mem_singleton] at hx1
  exact hk e he hx1

theorem Delete_inv (s s1 : store) (h : Ptr) (hd : User.Delete s h = some s1) :
    s1 = s.deleted h := by
  have hst : (s.heap h).store = true := by
    by_contra hne
    simp [User.Delete, hne] at hd
  rw [Delete_eq s h hst, Option.some.injEq] at hd
  exact hd.symm

theorem Reachable_uniqueKeys {s0 s : store} (hu0 : uniqueKeys s0.users)
    (hs0 : uniqueKeys s0.sessions) (hr : Reachable s0 s) :
    uniqueKeys s.users ∧ uniqueKeys s.sessions := by
  induction hr with
  | init => exact ⟨hu0, hs0⟩
  | Add P u p a _ ih =>
    refine ⟨?_, by rw [(Add_effect P _ u p a).2.1]; exact ih.2⟩
    rcases Add_users P _ u p a with h | ⟨hnew, h⟩
    · rw [h]; exact ih.1
    · rw [h]; exact uniqueKeys_append_fresh ih.1 u _ hnew
  | Login P uuid u p sids r _ h ih =>
    rcases Login_cases P _ _ uuid u p sids r h with rfl | ⟨q, rfl⟩ | ⟨q, _, hfree, _, rfl⟩
    · exact ih
    · exact ih
    · refine ⟨ih.1, ?_⟩
      have hnew := (mapLookup_eq_none_iff _ _).1 hfree
      simp only [store.loggedIn, mapInsert, mapDelete_of_absent _ _ hnew]
      exact uniqueKeys_append_fresh ih.2 _ _ hnew
  | LogOut h _ hl ih =>
    unfold User.LogOut at hl
    split at hl
    · simp only [Option.some.injEq] at hl
      rw [← hl, RemoveSessions_eq]
      exact ⟨ih.1, uniqueKeys_of_sublist (List.filter_sublist _) ih.2⟩
    · simp at hl
  | LogOutFully h _ hl ih =>
    unfold User.LogOutFully at hl
    split at hl
    · simp at hl
    · simp only [Option.some.injEq] at hl
      rw [← hl, RemoveSessions_eq]
      exact ⟨ih.1, uniqueKeys_of_sublist (List.filter_sublist _) ih.2⟩
  | Delete h _ hd ih =>
    rw [Delete_inv _ _ h hd]
    exact ⟨uniqueKeys_of_sublist (List.filter_sublist _) ih.1,
      uniqueKeys_of_sublist (List.filter_sublist _) ih.2⟩
  | ChangePassword P h p e _ hc ih =>
    rcases ChangePassword_cases P _ _ h p e hc with rfl | ⟨d, rfl⟩
    · exact ih
    · exact ih
  | ChangeAccess h a _ ih => exact ih
  | RemoveSessions ids _ ih =>
    rw [RemoveSessions_eq]
    exact ⟨ih.1, uniqueKeys_of_sublist (List.filter_sublist _) ih.2⟩
  | Session h v _ hs ih =>
    rcases Session_cases _ _ h v hs with rfl | rfl
    · exact ih
    · exact ih

/-- C23: in every state that the public operations reach from `Init`, every registry key is
the username of the record it maps to, so `get` of a username returns a record exactly when
the registry maps that key to it; every session table entry is bound to a record that the
registry holds; and the record that `UserFromID` returns is in the registry under its own
username, so it is not a deleted one.  The keys of both maps are pairwise distinct. -/
theorem reachable_store_consistent (us : Option UserSettings)
    (ur pr : Option (String → Bool)) (s : store) (hr : Reachable (Init us ur pr) s) :
    (∀ e ∈ s.users, (s.heap e.2).username = e.1)
      ∧ (∀ u q, s.get u = .ok q ↔ mapLookup s.users u = some q)
      ∧ (∀ e ∈ s.sessions, ∃ r ∈ s.users, r.2 = e.2)
      ∧ (∀ sid q, s.UserFromID sid = .ok q → ((s.heap q).username, q) ∈ s.users)
      ∧ uniqueKeys s.users ∧ uniqueKeys s.sessions := by
  have hc := Reachable_Consistent (Init_Consistent us ur pr) hr
  have huk : uniqueKeys s.users ∧ uniqueKeys s.sessions :=
    Reachable_uniqueKeys (by simp [uniqueKeys, Init]) (by simp [uniqueKeys, Init]) hr
  refine ⟨hc.key_username, get_eq_lookup s hc, hc.session_registered, ?_, huk.1, huk.2⟩
  intro sid q hq
  unfold store.UserFromID at hq
  split at hq
  · rename_i e he
    simp only [Except.ok.injEq] at hq
    subst hq
    obtain ⟨r, hr1, hre⟩ := hc.session_registered e (List.mem_of_find?_eq_some he)
    have hk := hc.key_username r hr1
    rw [← hre, hk]
    exact hr1
  · simp at hq

/-- C23, on the store with one user who holds one session. -/
theorem reachable_store_consistent_witness :
    (∀ e ∈ oneSessionStore.users, (oneSessionStore.heap e.2).username = e.1)
      ∧ (∀ e ∈ oneSessionStore.sessions, ∃ r ∈ oneSessionStore.users, r.2 = e.2) :=
  have h := reachable_store_consistent (some { MaxSessions := 1, AllowPasswordChange := true })
    none none oneSessionStore
    (Reachable.Login markPrimitives "g1" "bob" "pw" ["s1"] (.ok 0)
      (Reachable.Add markPrimitives "bob" "pw" USER Reachable.init) rfl)
  ⟨h.1, h.2.2.1⟩

end memory

namespace persistent

open memory

/-! ## C20: `ChangePassword` and the table -/

/-- C20 (the code at the failing input): `ChangePassword("test1")` returns no error and the
in-memory password of `user` is the hash of `test1`, but the password column of the row of
`user` still holds the hash of `test`; a store initialised from that table rejects
`Login("user", "test1")` and accepts `Login("user", "test")`. -/
theorem ChangePassword_table_keeps_old_hash :
    (changePasswordRun.map fun r =>
        (r.2, (r.1.mem.heap 0).password, r.1.database,
          ((Init r.1.database none none none).Login markPrimitives "g2" "user" "test1" []).map
            (fun x => x.2),
          ((Init r.1.database none none none).Login markPrimitives "g2" "user" "test" []).map
            (fun x => x.2)))
      = some (none, "#test1", [{ username := "user", password := "#test", access := 1 }],
          some (.error (.bcrypt 0)), some (.ok 0)) := by
  rfl

end persistent
